import Mathlib

/-!
Verification of the Shopify app-store intelligence engine's extraction
pipeline.  Python strings are modelled as Lean `String`s; where character
level reasoning is needed the underlying `List Char` is used (Python `str`
operations act on characters).  Browser-driven operations (Playwright page
objects) are modelled by explicit page records carrying the values the
driver would return; wall-clock time is modelled by abstract natural-number
durations attached to each bounded unit of work.
-/

/-! ## Python string primitives -/

/-- Python `str.strip()` on a character list: drop whitespace on both ends. -/
def stripWsChars (l : List Char) : List Char :=
  ((l.dropWhile Char.isWhitespace).reverse.dropWhile Char.isWhitespace).reverse

/-- Python `s.strip()`. -/
def pyStrip (s : String) : String := ⟨stripWsChars s.data⟩

/-- Python `s.strip(ch)` for a single character: drop `ch` on both ends. -/
def stripCharChars (ch : Char) (l : List Char) : List Char :=
  ((l.dropWhile (· = ch)).reverse.dropWhile (· = ch)).reverse

/-- Python slice `s[:n]` (first `n` characters). -/
def pyTake (n : Nat) (s : String) : String := ⟨s.data.take n⟩

/-- Python `len(s)` (number of characters). -/
def pyLen (s : String) : Nat := s.data.length

/-- Scanner for Python `s.replace(pat, "")`: delete every (leftmost,
non-overlapping) occurrence of `pat`.  `fuel` (always instantiated with the
list length, which suffices) makes the recursion structural. -/
def removeOccAux (pat : List Char) : Nat → List Char → List Char
  | _, [] => []
  | 0, l => l
  | fuel + 1, c :: rest =>
    if pat ≠ [] ∧ pat.isPrefixOf (c :: rest) then
      removeOccAux pat fuel ((c :: rest).drop pat.length)
    else
      c :: removeOccAux pat fuel rest

/-- Python `s.replace(pat, "")`. -/
def removeOcc (pat l : List Char) : List Char := removeOccAux pat l.length l

theorem removeOccAux_fuel_irrel (pat : List Char) :
    ∀ fuel1 fuel2 l, l.length ≤ fuel1 → l.length ≤ fuel2 →
      removeOccAux pat fuel1 l = removeOccAux pat fuel2 l := by
  intro fuel1
  induction fuel1 with
  | zero =>
    intro fuel2 l h1 _
    have : l = [] := List.length_eq_zero.mp (Nat.le_zero.mp h1)
    subst this
    cases fuel2 <;> rfl
  | succ f ih =>
    intro fuel2 l h1 h2
    cases l with
    | nil => cases fuel2 <;> rfl
    | cons c rest =>
      cases fuel2 with
      | zero => simp at h2
      | succ g =>
        simp only [removeOccAux]
        by_cases hc : pat ≠ [] ∧ pat.isPrefixOf (c :: rest) = true
        · rw [if_pos hc, if_pos hc]
          have hp : 0 < pat.length := List.length_pos.mpr hc.1
          have hd : ((c :: rest).drop pat.length).length ≤ f := by
            simp only [List.length_drop, List.length_cons] at *
            omega
          have hd2 : ((c :: rest).drop pat.length).length ≤ g := by
            simp only [List.length_drop, List.length_cons] at *
            omega
          exact ih _ _ hd hd2
        · rw [if_neg hc, if_neg hc]
          have hr : rest.length ≤ f := by
            simp only [List.length_cons] at h1
            omega
          have hr2 : rest.length ≤ g := by
            simp only [List.length_cons] at h2
            omega
          exact congrArg (c :: ·) (ih _ _ hr hr2)

theorem removeOccAux_eq (pat l : List Char) {fuel : Nat} (h : l.length ≤ fuel) :
    removeOccAux pat fuel l = removeOcc pat l :=
  removeOccAux_fuel_irrel pat fuel l.length l h (Nat.le_refl _)

/-- Python `a in b` for strings (substring containment). -/
def pyContains (hay needle : String) : Bool := decide (needle.data <:+: hay.data)

/-! ## Listing extractor (`shopify/products_by_category.py`) -/

/-- The fixed link prefix `https://apps.shopify.com/` used by the listing
extractor, as a character list. -/
def shopPre : List Char := ("https://apps.shopify.com/").data

/-- The slug computation of `extract_products_from_category` (lines 52-53):
`href.replace("https://apps.shopify.com/", "").split("?")[0].strip("/")`,
then `.split("/")[0].strip()`. -/
def slugChars (href : List Char) : List Char :=
  stripWsChars
    ((stripCharChars '/' ((removeOcc shopPre href).takeWhile (· ≠ '?'))).takeWhile (· ≠ '/'))

/-- String version of `slugChars`. -/
def slugOf (href : String) : String := ⟨slugChars href.data⟩

/-- Python `href.startswith("https://apps.shopify.com/")`. -/
def startsShop (href : String) : Bool := shopPre.isPrefixOf href.data

/-- The canonical product URL the listing extractor derives from a link
`href` (line 58): `https://apps.shopify.com/{slug}`; `none` when the loop
would skip the link (prefix mismatch, empty slug, or blocklisted slug). -/
def canonicalProductUrl (href : String) : Option String :=
  if startsShop href then
    let slug := slugOf href
    if slug = "" ∨ slug ∈ [("categories" : String), "pricing", "blog", "partners"] then
      none
    else
      some ((("https://apps.shopify.com/") : String) ++ slug)
  else
    none

/-- Python `slug.replace("-", " ")`. -/
def dashToSpace (s : String) : String := ⟨s.data.map (fun c => if c = '-' then ' ' else c)⟩

/-- Python `str.title()`: uppercase every alphabetic character that follows a
non-alphabetic one, lowercase the rest. -/
def pyTitleChars : Bool → List Char → List Char
  | _, [] => []
  | prevAlpha, c :: rest =>
    if c.isAlpha then
      (if prevAlpha then c.toLower else c.toUpper) :: pyTitleChars true rest
    else
      c :: pyTitleChars false rest

/-- Python `s.title()`. -/
def pyTitle (s : String) : String := ⟨pyTitleChars false s.data⟩

/-- One item link on a category page: its `href` attribute (already
defaulted to `""` as in `(await a.get_attribute("href")) or ""`) and its
inner text (`(await a.inner_text()) or ""`). -/
structure Link where
  href : String
  text : String
deriving DecidableEq, Repr

/-- A category record `{name, url, description}` from the nav config. -/
structure Category where
  name : String
  url : String
  description : String
deriving DecidableEq, Repr

/-- An item row as built by the listing extractor and later enriched by
`enrich_product_row`.  Field names follow the Python dict keys; the
placeholder `""` values the listing uses for `rating`/`reviews_count` are
modelled as `none`. -/
structure Row where
  apps_category : String
  apps_url : String
  description : String
  recommended_products : String
  products_url : String
  product_description : String
  price : String
  rating : Option Rat
  reviews_count : Option Nat
  developer_name : Option String
  developer_website : Option String
  reviews_source : Option String
  reviews_scraped_at : Option String
  reviews_scrape_error : Option String
  enrich_error : Option String
deriving DecidableEq, Repr

/-- The fresh row appended for an accepted link (lines 68-78). -/
def mkListingRow (catName catUrl catDesc name productUrl : String) : Row :=
  { apps_category := catName
    apps_url := catUrl
    description := catDesc
    recommended_products := name
    products_url := productUrl
    product_description := ""
    price := ""
    rating := none
    reviews_count := none
    developer_name := none
    developer_website := none
    reviews_source := none
    reviews_scraped_at := none
    reviews_scrape_error := none
    enrich_error := none }

/-- The link-enumeration loop of `extract_products_from_category`
(lines 46-82): per link check the prefix, derive the slug, skip empty or
blocklisted slugs, skip canonical URLs already seen in this call, derive the
display name (falling back to a title-cased slug when the link text strips
to fewer than 2 characters), append the row, and stop once `limit` rows are
collected. -/
def listingLoop (catName catUrl catDesc : String) (limit : Nat) :
    List Link → List String → List Row → List Row
  | [], _, rows => rows
  | a :: rest, seen, rows =>
    if ¬ startsShop a.href then
      listingLoop catName catUrl catDesc limit rest seen rows
    else
      let slug := slugOf a.href
      if slug = "" ∨ slug ∈ [("categories" : String), "pricing", "blog", "partners"] then
        listingLoop catName catUrl catDesc limit rest seen rows
      else
        let productUrl := (("https://apps.shopify.com/") : String) ++ slug
        if productUrl ∈ seen then
          listingLoop catName catUrl catDesc limit rest seen rows
        else
          let name0 := pyStrip a.text
          let name := if name0 = "" ∨ pyLen name0 < 2 then pyTitle (dashToSpace slug) else name0
          let rows2 := rows ++ [mkListingRow catName catUrl catDesc name productUrl]
          if limit ≤ rows2.length then rows2
          else listingLoop catName catUrl catDesc limit rest (productUrl :: seen) rows2

/-- A category page as the listing extractor sees it: whether the
"Recommended" heading was found, and the item links enumerated from the
resolved container (the container / sibling-widening logic of lines 21-30 is
abstracted into the final link list; both zero-link early returns collapse
into `links = []`). -/
structure CatPage where
  hasRecommendedH2 : Bool
  links : List Link
deriving Repr

/-- `extract_products_from_category(page, category, limit)`: fail soft with
`[]` when the heading or the links are missing, otherwise run the
enumeration loop over the category's (stripped) fields. -/
def extract_products_from_category (page : CatPage) (category : Category) (limit : Nat) :
    List Row :=
  if ¬ page.hasRecommendedH2 then []
  else if page.links.isEmpty then []
  else
    listingLoop (pyStrip category.name) (pyStrip category.url) (pyStrip category.description)
      limit page.links [] []

/-! ## List helper lemmas -/

theorem takeWhile_append_of_all {p : Char → Bool} {l1 l2 : List Char}
    (h : ∀ c ∈ l1, p c = true) :
    (l1 ++ l2).takeWhile p = l1 ++ l2.takeWhile p := by
  induction l1 with
  | nil => simp
  | cons c cs ih =>
    simp only [List.cons_append, List.takeWhile_cons, h c (by simp), if_true]
    exact congrArg (c :: ·) (ih (fun x hx => h x (by simp [hx])))

theorem takeWhile_of_all {p : Char → Bool} {l : List Char}
    (h : ∀ c ∈ l, p c = true) : l.takeWhile p = l := by
  have := @takeWhile_append_of_all p l [] h
  simpa using this

theorem dropWhile_of_all_neg {p : Char → Bool} {l : List Char}
    (h : ∀ c ∈ l, p c = false) : l.dropWhile p = l := by
  cases l with
  | nil => rfl
  | cons c cs => simp [List.dropWhile_cons, h c (by simp)]

theorem dropWhile_append_of_all {p : Char → Bool} {l1 l2 : List Char}
    (h : ∀ c ∈ l1, p c = true) :
    (l1 ++ l2).dropWhile p = l2.dropWhile p := by
  induction l1 with
  | nil => simp
  | cons c cs ih =>
    simp only [List.cons_append, List.dropWhile_cons, h c (by simp), if_true]
    exact ih (fun x hx => h x (by simp [hx]))

theorem dropWhile_append_of_ne {p : Char → Bool} {l1 l2 : List Char}
    (h : l1.dropWhile p ≠ []) :
    (l1 ++ l2).dropWhile p = l1.dropWhile p ++ l2 := by
  induction l1 with
  | nil => simp at h
  | cons c cs ih =>
    by_cases hc : p c = true
    · simp only [List.dropWhile_cons, hc, if_true] at h ⊢
      simp only [List.cons_append, List.dropWhile_cons, hc, if_true]
      exact ih h
    · simp only [List.cons_append, List.dropWhile_cons, hc]
      simp

theorem removeOcc_append_self {pat x : List Char} (hp : pat ≠ []) :
    removeOcc pat (pat ++ x) = removeOcc pat x := by
  obtain ⟨c, cs, rfl⟩ : ∃ c cs, pat = c :: cs := by
    cases pat with
    | nil => simp at hp
    | cons c cs => exact ⟨c, cs, rfl⟩
  have hpre : (c :: cs).isPrefixOf (c :: cs ++ x) = true := by
    rw [List.isPrefixOf_iff_prefix]
    exact ⟨x, by simp⟩
  have hlen : (c :: cs ++ x).length = (cs ++ x).length + 1 := by simp
  show removeOccAux (c :: cs) (c :: cs ++ x).length (c :: cs ++ x) = _
  rw [hlen]
  simp only [removeOccAux]
  rw [if_pos ⟨hp, hpre⟩]
  have hdrop : (c :: cs ++ x).drop (c :: cs).length = x := List.drop_left _ _
  rw [show (c :: cs.append x) = c :: cs ++ x by simp, hdrop]
  exact removeOccAux_eq _ _ (by simp)

theorem removeOccAux_eq_self {pat : List Char} :
    ∀ fuel (l : List Char), ¬ pat <:+: l → removeOccAux pat fuel l = l := by
  intro fuel
  induction fuel with
  | zero => intro l _; cases l <;> rfl
  | succ f ih =>
    intro l h
    cases l with
    | nil => rfl
    | cons c cs =>
      simp only [removeOccAux]
      have hnp : ¬ (pat ≠ [] ∧ pat.isPrefixOf (c :: cs) = true) := by
        rintro ⟨-, hpre⟩
        exact h (List.isPrefixOf_iff_prefix.mp hpre).isInfix
      rw [if_neg hnp]
      rw [ih cs (fun hi => h (List.infix_cons hi))]

theorem removeOcc_eq_self {pat l : List Char} (h : ¬ pat <:+: l) :
    removeOcc pat l = l :=
  removeOccAux_eq_self _ l h

theorem stripWs_of_clean {l : List Char} (h : ∀ c ∈ l, c.isWhitespace = false) :
    stripWsChars l = l := by
  unfold stripWsChars
  rw [dropWhile_of_all_neg h]
  rw [dropWhile_of_all_neg (fun c hc => h c (List.mem_reverse.mp hc))]
  exact List.reverse_reverse l

theorem stripChar_of_clean {ch : Char} {l : List Char} (h : ∀ c ∈ l, c ≠ ch) :
    stripCharChars ch l = l := by
  unfold stripCharChars
  rw [dropWhile_of_all_neg (fun c hc => decide_eq_false (h c hc))]
  rw [dropWhile_of_all_neg (fun c hc => decide_eq_false (h c (List.mem_reverse.mp hc)))]
  exact List.reverse_reverse l

theorem stripChar_slash_append {slug w : List Char}
    (hne : slug ≠ []) (hgood : ∀ c ∈ slug, c ≠ '/') :
    ∃ v, stripCharChars '/' (slug ++ '/' :: w) = slug ++ v ∧
      (v = [] ∨ v.head? = some '/') := by
  have hslash : ∀ c ∈ slug, (decide (c = '/')) = false :=
    fun c hc => decide_eq_false (hgood c hc)
  have hfront : (slug ++ '/' :: w).dropWhile (· = '/') = slug ++ '/' :: w := by
    cases slug with
    | nil => simp at hne
    | cons a as =>
      simp only [List.cons_append, List.dropWhile_cons, hslash a (by simp)]
      simp
  unfold stripCharChars
  rw [hfront, List.reverse_append]
  by_cases hall : (('/' :: w).reverse).dropWhile (· = '/') = []
  · refine ⟨[], ?_, Or.inl rfl⟩
    rw [dropWhile_append_of_all (List.dropWhile_eq_nil_iff.mp hall)]
    rw [dropWhile_of_all_neg (fun c hc => hslash c (List.mem_reverse.mp hc))]
    simp
  · rw [dropWhile_append_of_ne hall]
    set d := (('/' :: w).reverse).dropWhile (· = '/') with hd
    refine ⟨d.reverse, ?_, Or.inr ?_⟩
    · simp
    · rw [List.head?_reverse]
      obtain ⟨t, ht⟩ := @List.dropWhile_suffix Char (('/' :: w).reverse) (· = '/')
      have hlast : (('/' :: w).reverse).getLast? = some '/' := by
        have : ('/' :: w).reverse = w.reverse ++ ['/'] := by simp
        rw [this, List.getLast?_concat]
      rw [← ht, List.getLast?_append] at hlast
      cases hdl : d.getLast? with
      | none =>
        exact absurd (List.getLast?_eq_none_iff.mp hdl) hall
      | some x =>
        rw [← hd] at hlast
        rw [hdl] at hlast
        simp only [Option.or_some] at hlast
        exact hlast

theorem slug_key_stable (slug q r : List Char)
    (hne : slug ≠ [])
    (hgood : ∀ c ∈ slug, c ≠ '/' ∧ c ≠ '?' ∧ c.isWhitespace = false)
    (hnoq : ¬ shopPre <:+: (slug ++ '?' :: q))
    (hnor : ¬ shopPre <:+: (slug ++ '/' :: r)) :
    slugChars (shopPre ++ slug) = slug ∧
    slugChars (shopPre ++ (slug ++ '?' :: q)) = slug ∧
    slugChars (shopPre ++ (slug ++ '/' :: r)) = slug := by
  have hpre_ne : shopPre ≠ [] := by decide
  have hnos : ¬ shopPre <:+: slug := by
    intro h
    exact hnoq (h.trans ⟨[], '?' :: q, by simp⟩)
  have hq : ∀ c ∈ slug, (decide (c ≠ '?')) = true :=
    fun c hc => decide_eq_true (hgood c hc).2.1
  have hclean_ws : ∀ c ∈ slug, c.isWhitespace = false := fun c hc => (hgood c hc).2.2
  have hclean_sl : ∀ c ∈ slug, c ≠ '/' := fun c hc => (hgood c hc).1
  refine ⟨?_, ?_, ?_⟩
  · unfold slugChars
    rw [removeOcc_append_self hpre_ne, removeOcc_eq_self hnos]
    rw [takeWhile_of_all hq, stripChar_of_clean hclean_sl]
    rw [takeWhile_of_all (fun c hc => decide_eq_true (hclean_sl c hc))]
    exact stripWs_of_clean hclean_ws
  · unfold slugChars
    rw [removeOcc_append_self hpre_ne, removeOcc_eq_self hnoq]
    rw [takeWhile_append_of_all hq]
    have : ('?' :: q).takeWhile (· ≠ '?') = [] := by
      simp [List.takeWhile_cons]
    rw [this, List.append_nil, stripChar_of_clean hclean_sl]
    rw [takeWhile_of_all (fun c hc => decide_eq_true (hclean_sl c hc))]
    exact stripWs_of_clean hclean_ws
  · unfold slugChars
    rw [removeOcc_append_self hpre_ne, removeOcc_eq_self hnor]
    rw [takeWhile_append_of_all hq]
    have h1 : ('/' :: r).takeWhile (· ≠ '?') = '/' :: r.takeWhile (· ≠ '?') := by
      simp [List.takeWhile_cons]
    rw [h1]
    obtain ⟨v, hv, hcase⟩ :=
      @stripChar_slash_append slug (r.takeWhile (· ≠ '?')) hne hclean_sl
    rw [hv]
    rw [takeWhile_append_of_all (fun c hc => decide_eq_true (hclean_sl c hc))]
    cases hcase with
    | inl h0 =>
      rw [h0]
      simp only [List.takeWhile_nil, List.append_nil]
      exact stripWs_of_clean hclean_ws
    | inr hhead =>
      cases v with
      | nil => simp at hhead
      | cons a v' =>
        simp only [List.head?_cons, Option.some.injEq] at hhead
        subst hhead
        have h2 : ('/' :: v').takeWhile (· ≠ '/') = [] := by
          simp [List.takeWhile_cons]
        rw [h2, List.append_nil]
        exact stripWs_of_clean hclean_ws

/-! ## Claim C2: canonicalization -/

/-- C2, counterexample.  The claim states that fragments are stripped from
the canonical item URL, so two URLs differing only in a fragment should
yield the same key.  The code only splits on `?`, strips slashes and cuts at
the first `/`, so a `#fragment` glued directly onto the first path segment
survives into the canonical key: the two URLs below get different keys. -/
theorem c2_counterexample :
    canonicalProductUrl ("https://apps.shopify.com/app-x#reviews")
      = some ("https://apps.shopify.com/app-x#reviews") ∧
    canonicalProductUrl ("https://apps.shopify.com/app-x")
      = some ("https://apps.shopify.com/app-x") ∧
    canonicalProductUrl ("https://apps.shopify.com/app-x#reviews")
      ≠ canonicalProductUrl ("https://apps.shopify.com/app-x") := by
  refine ⟨by decide, by decide, by decide⟩

/-- C2, amended.  For an item link `https://apps.shopify.com/<slug>...`
whose first path segment contains no `/`, `?` or whitespace and whose
remainder contains no further copy of the link prefix, the canonical key is
scheme+host+first-path-segment: the query string (everything from the first
`?`), the trailing slash, and all path segments beyond the first are
stripped, so a bare URL, `url?query` and `url/extra` all canonicalize to the
same key.  (Fragments are NOT stripped unless they follow a `?` or `/` —
see the counterexample.) -/
theorem c2_amended (slug q r : List Char) (hne : slug ≠ [])
    (hgood : ∀ c ∈ slug, c ≠ '/' ∧ c ≠ '?' ∧ c.isWhitespace = false)
    (hnoq : ¬ shopPre <:+: (slug ++ '?' :: q))
    (hnor : ¬ shopPre <:+: (slug ++ '/' :: r)) :
    slugChars (shopPre ++ (slug ++ '?' :: q)) = slugChars (shopPre ++ slug) ∧
    slugChars (shopPre ++ (slug ++ '/' :: r)) = slugChars (shopPre ++ slug) ∧
    slugChars (shopPre ++ slug) = slug := by
  obtain ⟨h1, h2, h3⟩ := slug_key_stable slug q r hne hgood hnoq hnor
  exact ⟨by rw [h2, h1], by rw [h3, h1], h1⟩

/-- C2, witness: the spec's own example pair — `.../app-x/?ref=abc` and
`.../app-x` canonicalize to the same key `app-x`. -/
theorem c2_amended_witness :
    slugChars (shopPre ++ (("app-x").data ++ '/' :: ("?ref=abc").data))
      = slugChars (shopPre ++ ("app-x").data) ∧
    slugChars (shopPre ++ ("app-x").data) = ("app-x").data := by
  have h := c2_amended (("app-x").data) (("ref=abc").data) (("?ref=abc").data)
    (by decide) (by decide) (by decide) (by decide)
  exact ⟨h.2.1, h.2.2⟩

/-! ## Claim C8: listing extractor bounds, dedup and order -/

theorem listingLoop_spec (cn cu cd : String) (limit : Nat) :
    ∀ (links : List Link) (seen : List String) (rows : List Row),
      rows.length < limit →
      (rows.map Row.products_url).Nodup →
      (∀ u ∈ rows.map Row.products_url, u ∈ seen) →
      (listingLoop cn cu cd limit links seen rows).length ≤ limit ∧
      ((listingLoop cn cu cd limit links seen rows).map Row.products_url).Nodup ∧
      ∃ fresh, listingLoop cn cu cd limit links seen rows = rows ++ fresh ∧
        List.Sublist (fresh.map Row.products_url)
          (links.filterMap (fun a => canonicalProductUrl a.href)) ∧
        ∀ x ∈ fresh, x.apps_category = cn := by
  intro links
  induction links with
  | nil =>
    intro seen rows hlen hnd _
    rw [listingLoop]
    exact ⟨Nat.le_of_lt hlen, hnd, [], by simp, List.nil_sublist _, by simp⟩
  | cons a rest ih =>
    intro seen rows hlen hnd hsub
    by_cases hs : startsShop a.href = true
    · by_cases hbad : slugOf a.href = "" ∨
        slugOf a.href ∈ [("categories" : String), "pricing", "blog", "partners"]
      · -- blocklisted or empty slug: the link is skipped and contributes no key
        have hcan : canonicalProductUrl a.href = none := by
          simp only [canonicalProductUrl, hs, if_true]
          rw [if_pos hbad]
        rw [listingLoop, if_neg (by simp [hs])]
        simp only []
        rw [if_pos hbad]
        obtain ⟨g1, g2, fresh, gf, gsl, gcat⟩ := ih seen rows hlen hnd hsub
        exact ⟨g1, g2, fresh, gf, by simpa [List.filterMap_cons, hcan] using gsl, gcat⟩
      · set u : String := (("https://apps.shopify.com/") : String) ++ slugOf a.href with hu
        have hcan : canonicalProductUrl a.href = some u := by
          simp only [canonicalProductUrl, hs, if_true]
          rw [if_neg hbad]
        by_cases hseen : u ∈ seen
        · -- canonical URL already seen in this call: skipped
          rw [listingLoop, if_neg (by simp [hs])]
          simp only []
          rw [if_neg hbad, if_pos hseen]
          obtain ⟨g1, g2, fresh, gf, gsl, gcat⟩ := ih seen rows hlen hnd hsub
          refine ⟨g1, g2, fresh, gf, ?_, gcat⟩
          rw [List.filterMap_cons, hcan]
          exact gsl.cons u
        · -- a fresh row is appended
          have hnotrows : u ∉ rows.map Row.products_url := fun hmem => hseen (hsub u hmem)
          rw [listingLoop, if_neg (by simp [hs])]
          simp only []
          rw [if_neg hbad, if_neg hseen]
          set name0 := pyStrip a.text with hname0
          set nm := if name0 = "" ∨ pyLen name0 < 2 then pyTitle (dashToSpace (slugOf a.href))
            else name0 with hnm
          set newRow := mkListingRow cn cu cd nm u with hnewRow
          have hmapnew : (rows ++ [newRow]).map Row.products_url
              = rows.map Row.products_url ++ [u] := by
            simp [hnewRow, mkListingRow]
          have hnd2 : ((rows ++ [newRow]).map Row.products_url).Nodup := by
            rw [hmapnew, List.nodup_append]
            exact ⟨hnd, List.nodup_singleton u, by simpa using hnotrows⟩
          by_cases hstop : limit ≤ (rows ++ [newRow]).length
          · rw [if_pos hstop]
            refine ⟨?_, hnd2, [newRow], rfl, ?_, ?_⟩
            · simp only [List.length_append, List.length_singleton]
              omega
            · rw [List.filterMap_cons, hcan]
              simp only [hnewRow, mkListingRow, List.map_cons, List.map_nil]
              exact
                (List.nil_sublist (rest.filterMap (fun a => canonicalProductUrl a.href))).cons₂ u
            · intro x hx
              simp only [List.mem_singleton] at hx
              subst hx
              rfl
          · rw [if_neg hstop]
            have hlen2 : (rows ++ [newRow]).length < limit := by omega
            have hsub2 : ∀ v ∈ (rows ++ [newRow]).map Row.products_url, v ∈ u :: seen := by
              intro v hv
              rw [hmapnew, List.mem_append] at hv
              rcases hv with hv | hv
              · exact List.mem_cons_of_mem u (hsub v hv)
              · simp only [List.mem_singleton] at hv
                subst hv
                exact List.mem_cons_self u seen
            obtain ⟨g1, g2, fresh, gf, gsl, gcat⟩ := ih (u :: seen) (rows ++ [newRow])
              hlen2 hnd2 hsub2
            refine ⟨g1, g2, newRow :: fresh, by rw [gf, List.append_assoc, List.singleton_append],
              ?_, ?_⟩
            · rw [List.filterMap_cons, hcan]
              have : (newRow :: fresh).map Row.products_url
                  = u :: fresh.map Row.products_url := by
                simp [hnewRow, mkListingRow]
              rw [this]
              exact gsl.cons₂ u
            · intro x hx
              rcases List.mem_cons.mp hx with hx | hx
              · subst hx; rfl
              · exact gcat x hx
    · -- prefix mismatch: skipped, contributes no key
      have hcan : canonicalProductUrl a.href = none := by
        simp [canonicalProductUrl, hs]
      rw [listingLoop, if_pos (by simp [hs])]
      obtain ⟨g1, g2, fresh, gf, gsl, gcat⟩ := ih seen rows hlen hnd hsub
      exact ⟨g1, g2, fresh, gf, by simpa [List.filterMap_cons, hcan] using gsl, gcat⟩

/-- C8, counterexample.  The claim quantifies over every `limit`, but the
loop appends a row before comparing `len(rows) >= limit`, so with
`limit = 0` a category page with one matching link yields one record, not
zero. -/
theorem c8_counterexample :
    ¬ (extract_products_from_category
        ⟨true, [⟨("https://apps.shopify.com/app-one"), ("App One")⟩]⟩
        ⟨("Marketing"), ("https://store.example/categories/marketing"), ("")⟩
        0).length ≤ 0 := by decide

/-- C8, amended (restricted to positive limits).  For every category page
and every `limit ≥ 1`, the listing extractor returns at most `limit`
records, their canonical `products_url`s are pairwise distinct, the
returned URL sequence is a subsequence of the links' canonical URLs in page
order (stable, not sorted), and every record carries the category's
(stripped) name. -/
theorem c8_amended (page : CatPage) (cat : Category) (limit : Nat) (h : 1 ≤ limit) :
    (extract_products_from_category page cat limit).length ≤ limit ∧
    ((extract_products_from_category page cat limit).map Row.products_url).Nodup ∧
    List.Sublist ((extract_products_from_category page cat limit).map Row.products_url)
      (page.links.filterMap (fun a => canonicalProductUrl a.href)) ∧
    ∀ x ∈ extract_products_from_category page cat limit,
      x.apps_category = pyStrip cat.name := by
  unfold extract_products_from_category
  by_cases h2 : page.hasRecommendedH2 = true
  · by_cases h3 : page.links.isEmpty = true
    · rw [if_neg (by simp [h2]), if_pos h3]
      exact ⟨Nat.zero_le _, List.nodup_nil, List.nil_sublist _, by simp⟩
    · rw [if_neg (by simp [h2]), if_neg (by simp [h3])]
      obtain ⟨g1, g2, fresh, gf, gsl, gcat⟩ :=
        listingLoop_spec (pyStrip cat.name) (pyStrip cat.url) (pyStrip cat.description)
          limit page.links [] [] (by simp only [List.length_nil]; omega)
          List.nodup_nil (by simp)
      rw [gf] at g1 g2 ⊢
      simp only [List.nil_append] at g1 g2 ⊢
      exact ⟨g1, g2, gsl, gcat⟩
  · rw [if_pos (by simp [h2])]
    exact ⟨Nat.zero_le _, List.nodup_nil, List.nil_sublist _, by simp⟩

/-- C8, witness: the spec's scenario — category `Marketing`, two matching
links, `limit = 2` — satisfies the amended theorem, and evaluating the
extractor shows it returns exactly 2 records with the category name and
distinct canonical URLs, in page order. -/
theorem c8_amended_witness :
    ((extract_products_from_category
        ⟨true, [⟨("https://apps.shopify.com/app-one"), ("App One")⟩,
                ⟨("https://apps.shopify.com/app-two/?ref=x"), ("App Two")⟩]⟩
        ⟨("Marketing"), ("https://store.example/categories/marketing"), ("")⟩
        2).length ≤ 2 ∧
      ((extract_products_from_category
        ⟨true, [⟨("https://apps.shopify.com/app-one"), ("App One")⟩,
                ⟨("https://apps.shopify.com/app-two/?ref=x"), ("App Two")⟩]⟩
        ⟨("Marketing"), ("https://store.example/categories/marketing"), ("")⟩
        2).map Row.products_url).Nodup ∧
      List.Sublist ((extract_products_from_category
        ⟨true, [⟨("https://apps.shopify.com/app-one"), ("App One")⟩,
                ⟨("https://apps.shopify.com/app-two/?ref=x"), ("App Two")⟩]⟩
        ⟨("Marketing"), ("https://store.example/categories/marketing"), ("")⟩
        2).map Row.products_url)
        (([⟨("https://apps.shopify.com/app-one"), ("App One")⟩,
           ⟨("https://apps.shopify.com/app-two/?ref=x"), ("App Two")⟩] : List Link).filterMap
          (fun a => canonicalProductUrl a.href)) ∧
      ∀ x ∈ extract_products_from_category
        ⟨true, [⟨("https://apps.shopify.com/app-one"), ("App One")⟩,
                ⟨("https://apps.shopify.com/app-two/?ref=x"), ("App Two")⟩]⟩
        ⟨("Marketing"), ("https://store.example/categories/marketing"), ("")⟩
        2, x.apps_category = pyStrip ("Marketing")) ∧
    ((extract_products_from_category
        ⟨true, [⟨("https://apps.shopify.com/app-one"), ("App One")⟩,
                ⟨("https://apps.shopify.com/app-two/?ref=x"), ("App Two")⟩]⟩
        ⟨("Marketing"), ("https://store.example/categories/marketing"), ("")⟩
        2).map (fun x => (x.apps_category, x.products_url))
      = [(("Marketing"), ("https://apps.shopify.com/app-one")),
         (("Marketing"), ("https://apps.shopify.com/app-two"))]) := by
  constructor
  · exact c8_amended
      ⟨true, [⟨("https://apps.shopify.com/app-one"), ("App One")⟩,
              ⟨("https://apps.shopify.com/app-two/?ref=x"), ("App Two")⟩]⟩
      ⟨("Marketing"), ("https://store.example/categories/marketing"), ("")⟩
      2 (by decide)
  · decide

/-! ## Detail enricher (`shopify/product_detail.py`) -/

/-- Case-insensitive character comparison (Python `re.IGNORECASE`). -/
def ciEq (a b : Char) : Bool := a.toLower == b.toLower

/-- Match a fixed pattern case-insensitively at the head of `s`; returns the
consumed characters (with original casing) and the remainder. -/
def takeCI : List Char → List Char → Option (List Char × List Char)
  | [], s => some ([], s)
  | _ :: _, [] => none
  | p :: ps, c :: cs =>
    if ciEq p c then
      match takeCI ps cs with
      | some (m, r) => some (c :: m, r)
      | none => none
    else none

/-- The billing-period alternation `(month|mo|year|yr)` of the price regex,
tried in the pattern's order. -/
def matchPeriodWord (s : List Char) : Option (List Char × List Char) :=
  match takeCI (("month").data) s with
  | some mr => some mr
  | none =>
    match takeCI (("mo").data) s with
    | some mr => some mr
    | none =>
      match takeCI (("year").data) s with
      | some mr => some mr
      | none => takeCI (("yr").data) s

/-- The optional `(From\s*)?` prefix of both price regexes. -/
def matchFromOpt (s : List Char) : List Char × List Char :=
  match takeCI (("from").data) s with
  | some (m, r) =>
    let wr := r.span Char.isWhitespace
    (m ++ wr.1, wr.2)
  | none => ([], s)

/-- The core `\$\s*\d+(?:\.\d+)?` of both price regexes. -/
def matchDollarCore (s : List Char) : Option (List Char × List Char) :=
  match s with
  | '$' :: s1 =>
    let w := s1.span Char.isWhitespace
    let d := w.2.span Char.isDigit
    if d.1.isEmpty then none
    else
      match d.2 with
      | '.' :: t =>
        let f := t.span Char.isDigit
        if f.1.isEmpty then some ('$' :: (w.1 ++ d.1), d.2)
        else some ('$' :: (w.1 ++ d.1 ++ '.' :: f.1), f.2)
      | _ => some ('$' :: (w.1 ++ d.1), d.2)
  | _ => none

/-- Match `(From\s*)?\$\s*\d+(?:\.\d+)?` at the head of `s` (the looser
price pattern of `_extract_price`, line 127). -/
def matchBareAt (s : List Char) : Option (List Char) :=
  let pre := matchFromOpt s
  match matchDollarCore pre.2 with
  | some m => some (pre.1 ++ m.1)
  | none => none

/-- Match `(From\s*)?\$\s*\d+(?:\.\d+)?\s*(?:/|\sper\s)\s*(month|mo|year|yr)`
at the head of `s` (the billing-period price pattern of `_extract_price`,
line 123).  The backtracking of `\s*(?:/|\sper\s)` resolves
deterministically: either `/` follows the whitespace run, or the run is
nonempty, `per` starts at its end and is followed by one more whitespace. -/
def matchPeriodAt (s : List Char) : Option (List Char) :=
  let pre := matchFromOpt s
  match matchDollarCore pre.2 with
  | none => none
  | some m =>
    let w2 := m.2.span Char.isWhitespace
    match w2.2 with
    | '/' :: s4 =>
      let w3 := s4.span Char.isWhitespace
      match matchPeriodWord w3.2 with
      | some pw => some (pre.1 ++ m.1 ++ w2.1 ++ '/' :: (w3.1 ++ pw.1))
      | none => none
    | s3 =>
      if w2.1.isEmpty then none
      else
        match takeCI (("per").data) s3 with
        | some pm =>
          match pm.2 with
          | c :: s5 =>
            if c.isWhitespace then
              let w3 := s5.span Char.isWhitespace
              match matchPeriodWord w3.2 with
              | some pw => some (pre.1 ++ m.1 ++ w2.1 ++ pm.1 ++ c :: (w3.1 ++ pw.1))
              | none => none
            else none
          | [] => none
        | none => none

/-- Python `re.search`: return the leftmost match of `f`. -/
def searchChars (f : List Char → Option (List Char)) : List Char → Option (List Char)
  | [] => f []
  | c :: rest =>
    match f (c :: rest) with
    | some m => some m
    | none => searchChars f rest

/-- Leftmost match of the billing-period price pattern. -/
def searchPeriodPrice (s : String) : Option String :=
  (searchChars matchPeriodAt s.data).map (fun l => ⟨l⟩)

/-- Leftmost match of the bare price pattern. -/
def searchBarePrice (s : String) : Option String :=
  (searchChars matchBareAt s.data).map (fun l => ⟨l⟩)

/-- One item detail page as the enricher sees it.  `pageText` is the visible
page text that Playwright `text=` locators match against; `devOutcome` and
`ratingOutcome` are the outcomes of the two fault-isolated extraction steps
(`Except.error` models an exception escaping the helper into the step's
`try`/`except`); `mainText` is `main`'s inner text (`Except.error` models
the `inner_text` call raising, which `_extract_price` turns into `""`);
`metaContent` is the `content` attribute of `meta[name='description']`
(`none` when the tag is absent); `firstPText` is the `_safe_text` of the
first `main p` element. -/
structure DetailPage where
  pageText : String
  devOutcome : Except Unit (Option String × Option String)
  ratingOutcome : Except String (Option Rat × Option Nat)
  mainText : Except Unit String
  metaContent : Option String
  firstPText : String

/-- `_extract_price(page)` (lines 112-131): fixed free-tier phrases first,
then the billing-period pattern, then the bare pattern, else `""`. -/
def extract_price (page : DetailPage) : String :=
  if pyContains page.pageText ("Free to install") then ("Free to install")
  else if pyContains page.pageText ("Free plan") then ("Free plan")
  else
    match page.mainText with
    | .error _ => ""
    | .ok txt =>
      match searchPeriodPrice txt with
      | some m => pyStrip m
      | none =>
        match searchBarePrice txt with
        | some m => pyStrip m
        | none => ""

/-- `_extract_description(page)` (lines 134-143): meta description if
present and nonempty after strip, else the first paragraph. -/
def extract_description (page : DetailPage) : String :=
  match page.metaContent with
  | some c => if pyStrip c ≠ "" then pyStrip c else page.firstPText
  | none => page.firstPText

/-- The developer pair `enrich_product_row` ends up storing: the extracted
pair on success, `(None, None)` when the step's `except` fires. -/
def devResultOf (page : DetailPage) : Option String × Option String :=
  match page.devOutcome with
  | .ok p => p
  | .error _ => (none, none)

/-- `enrich_product_row(page, row)` (lines 146-177): navigate (abstracted),
then run the developer step, the rating/reviews step, the description step
and the price step in order, each fault-isolated; the rating step's
`except` records `reviews_scrape_error` while the success path records
`reviews_scraped_at`; the same row object is always returned. -/
def enrich_product_row (page : DetailPage) (now : String) (row : Row) : Row :=
  let row1 :=
    match page.devOutcome with
    | .ok dp => { row with developer_name := dp.1, developer_website := dp.2 }
    | .error _ => { row with developer_name := none, developer_website := none }
  let row2 :=
    match page.ratingOutcome with
    | .ok rc =>
      { row1 with
        rating := rc.1
        reviews_count := rc.2
        reviews_source := some ("shopify_app_store")
        reviews_scraped_at := some (now ++ ("Z")) }
    | .error e =>
      { row1 with
        rating := none
        reviews_count := none
        reviews_source := some ("shopify_app_store")
        reviews_scrape_error := some e }
  let row3 := { row2 with product_description := extract_description page }
  { row3 with price := extract_price page }

/-! ## Claim C7: price extraction precedence -/

/-- C7.  Free-tier phrase precedence and pattern preference of
`_extract_price`: "Free to install" anywhere on the page wins regardless of
dollar amounts; else "Free plan"; else the first (leftmost) match of the
billing-period pattern is returned in preference to any bare `$<number>`
match; a bare match is used only when no period-form match exists. -/
theorem c7_price_precedence (page : DetailPage) :
    (pyContains page.pageText ("Free to install") = true →
      extract_price page = ("Free to install")) ∧
    (pyContains page.pageText ("Free to install") = false →
      pyContains page.pageText ("Free plan") = true →
      extract_price page = ("Free plan")) ∧
    (∀ txt m,
      pyContains page.pageText ("Free to install") = false →
      pyContains page.pageText ("Free plan") = false →
      page.mainText = Except.ok txt →
      searchPeriodPrice txt = some m →
      extract_price page = pyStrip m) ∧
    (∀ txt m,
      pyContains page.pageText ("Free to install") = false →
      pyContains page.pageText ("Free plan") = false →
      page.mainText = Except.ok txt →
      searchPeriodPrice txt = none →
      searchBarePrice txt = some m →
      extract_price page = pyStrip m) := by
  refine ⟨?_, ?_, ?_, ?_⟩
  · intro h
    simp [extract_price, h]
  · intro h1 h2
    simp [extract_price, h1, h2]
  · intro txt m h1 h2 hok hsp
    simp [extract_price, h1, h2, hok, hsp]
  · intro txt m h1 h2 hok hsp hsb
    simp [extract_price, h1, h2, hok, hsp, hsb]

/-- Concrete detail page for the C7 witness: no free-tier phrase, and a
main text carrying both a bare price and a billing-period price. -/
def c7page : DetailPage :=
  ⟨("Pricing details"), Except.ok (none, none), Except.ok (none, none),
    Except.ok ("Pay $3 once or From $9.99/month today"), none, ("")⟩

/-- C7, witness: on `c7page` the period-form match "From $9.99/month" is
returned even though a bare "$3" occurs earlier in the text. -/
theorem c7_price_precedence_witness :
    (pyContains (("Pricing details") : String) ("Free to install") = false ∧
     pyContains (("Pricing details") : String) ("Free plan") = false ∧
     searchPeriodPrice ("Pay $3 once or From $9.99/month today")
       = some ("From $9.99/month")) ∧
    extract_price c7page = ("From $9.99/month") := by
  refine ⟨⟨by decide, by decide, by decide⟩, ?_⟩
  have h := (c7_price_precedence c7page).2.2.1
    ("Pay $3 once or From $9.99/month today") ("From $9.99/month")
    (by decide) (by decide) rfl (by decide)
  rw [h]
  decide

/-! ## Claim C5: partial enrichment on rating-step failure -/

/-- C5.  If the rating/reviews step raises, `enrich_product_row` still
returns the same record: the developer fields from the developer step, the
price and description from their (unaffected, later) steps, the key fields
untouched, `rating`/`reviews_count` cleared, and the distinguishable error
marker `reviews_scrape_error` set — whereas a successful rating step (even
one finding no data) leaves `reviews_scrape_error` unset. -/
theorem c5_partial_enrichment (page : DetailPage) (now : String) (row : Row) (e : String)
    (herr : page.ratingOutcome = Except.error e) :
    (enrich_product_row page now row).developer_name = (devResultOf page).1 ∧
    (enrich_product_row page now row).developer_website = (devResultOf page).2 ∧
    (enrich_product_row page now row).price = extract_price page ∧
    (enrich_product_row page now row).product_description = extract_description page ∧
    (enrich_product_row page now row).reviews_scrape_error = some e ∧
    (enrich_product_row page now row).rating = none ∧
    (enrich_product_row page now row).reviews_count = none ∧
    (enrich_product_row page now row).products_url = row.products_url ∧
    (enrich_product_row page now row).apps_category = row.apps_category ∧
    (enrich_product_row page now row).recommended_products = row.recommended_products ∧
    (∀ (page2 : DetailPage) rc, page2.ratingOutcome = Except.ok rc →
      row.reviews_scrape_error = none →
      (enrich_product_row page2 now row).reviews_scrape_error = none) := by
  have hfree : ∀ (page2 : DetailPage) rc, page2.ratingOutcome = Except.ok rc →
      row.reviews_scrape_error = none →
      (enrich_product_row page2 now row).reviews_scrape_error = none := by
    intro page2 rc hok hnone
    cases hdev2 : page2.devOutcome <;>
      simp [enrich_product_row, hok, hdev2, hnone]
  refine ⟨?_, ?_, ?_, ?_, ?_, ?_, ?_, ?_, ?_, ?_, hfree⟩ <;>
    cases hdev : page.devOutcome <;>
      simp [enrich_product_row, devResultOf, herr, hdev]

/-- Concrete detail page for the C5 witness: the rating step raises while
the developer, description and price data are all available. -/
def c5page : DetailPage :=
  ⟨("pg"), Except.ok (some ("DevCo"), some ("https://devco.example")),
    Except.error ("boom"), Except.ok ("From $4/mo"), some ("A great app."),
    ("fallback")⟩

/-- Concrete listing row for the C5 witness. -/
def c5row : Row :=
  mkListingRow ("Marketing") ("https://store.example/categories/marketing") ("")
    ("App One") ("https://apps.shopify.com/app-one")

/-- C5, witness: on `c5page` the enriched record keeps the developer,
price and description values and carries the error marker. -/
theorem c5_partial_enrichment_witness :
    (enrich_product_row c5page ("2024-01-01T00:00:00") c5row).reviews_scrape_error
      = some ("boom") ∧
    (enrich_product_row c5page ("2024-01-01T00:00:00") c5row).developer_name
      = some ("DevCo") ∧
    (enrich_product_row c5page ("2024-01-01T00:00:00") c5row).price
      = ("From $4/mo") ∧
    (enrich_product_row c5page ("2024-01-01T00:00:00") c5row).product_description
      = ("A great app.") ∧
    (enrich_product_row c5page ("2024-01-01T00:00:00") c5row).products_url
      = ("https://apps.shopify.com/app-one") := by
  have h := c5_partial_enrichment c5page ("2024-01-01T00:00:00") c5row ("boom") rfl
  refine ⟨h.2.2.2.2.1, ?_, ?_, ?_, ?_⟩
  · rw [h.1]; decide
  · rw [h.2.2.1]; decide
  · rw [h.2.2.2.1]; decide
  · rw [h.2.2.2.2.2.2.2.1]; decide

/-! ## Review harvester (`shopify/reviews_extractor.py`)

Wall-clock time is modelled by abstract `Nat` durations attached to each
bounded unit of driver work: `initDur` covers navigation + settle + the
price/name backfill + the structured-data pass, `preLoopDur` the
reveal-click and pre-loop scroll, `scrollDur` the per-iteration scroll and
card query, `Card.dur` the processing of one card, and `loadMoreDur` /
`nextDur` the two pagination click attempts.  The elapsed counter `t` plays
the role of `time.time() - start`; the code's deadline checks `... >
time_budget_sec` become `budget < t` at exactly the page-iteration and
card-iteration boundaries where the source checks them. -/

/-- The regex `([0-5](?:\.\d)?)` of the DOM pass applied to an aria label:
first character in `0..5`, optionally followed by `.` and one digit. -/
def ratingScan : List Char → Option (List Char)
  | [] => none
  | c :: rest =>
    if '0' ≤ c ∧ c ≤ '5' then
      some (match rest with
        | '.' :: d :: _ => if d.isDigit then [c, '.', d] else [c]
        | _ => [c])
    else ratingScan rest

/-- DOM-pass star rating from an aria label; `""` when no match. -/
def ratingOf (aria : String) : String :=
  ((ratingScan aria.data).map (fun l => (⟨l⟩ : String))).getD ""

/-- One review record as pushed by `extract_shopify_reviews`. -/
structure Review where
  platform : String
  app_name : String
  app_url : String
  category_url : String
  review_title : String
  review_text : String
  review_date : String
  reviewer : String
  rating : String
  source : String
deriving DecidableEq, Repr

/-- The shared app record `extract_shopify_reviews` receives and may
enrich.  `app_url`/`category_url` are modelled as always-present strings
(the code reads them with defaults); `app_name`/`price` are optional since
the code tests their presence; `others` stands for any further dict entries,
which the function never touches. -/
structure AppRec where
  app_url : String
  app_name : Option String
  price : Option String
  category_url : String
  others : List (String × String)
deriving DecidableEq, Repr

/-- A raw review surfaced by the structured-data (JSON-LD) pass
`_extract_json_ld_reviews` (the JSON parsing itself is driver work; the
pass's output list is the model's input). -/
structure RawReview where
  review_title : String
  review_text : String
  review_date : String
  reviewer : String
  rating : String
deriving DecidableEq, Repr

/-- One DOM candidate card: its first paragraph (`body`), heading title,
time element, bold/strong/link reviewer, aria star label, and the abstract
duration of processing it. -/
structure Card where
  dur : Nat
  body : String
  title : String
  date : String
  reviewer : String
  aria : String
deriving DecidableEq, Repr

/-- The page state one DOM-pass iteration sees: the candidate cards (the
scope-narrowing heuristic is absorbed into this list), whether the page
shows a "Reviews" keyword, and presence/outcome/duration of the
"Load more" and "Next" controls. -/
structure DomIter where
  scrollDur : Nat
  cards : List Card
  hasReviewsText : Bool
  loadMorePresent : Bool
  loadMoreDur : Nat
  loadMoreOk : Bool
  nextPresent : Bool
  nextDur : Nat
  nextOk : Bool
deriving Repr

/-- An item page as the review harvester sees it.  `gotoFails` models the
navigation raising (caught by the outer `except`); `priceText` and
`h1Text` are the values `extract_shopify_price(page)` and
`_safe_text(page.locator("h1"), ...)` would produce. -/
structure HarvestPage where
  gotoFails : Bool
  initDur : Nat
  preLoopDur : Nat
  priceText : String
  h1Text : String
  jsonld : List RawReview
  domIters : List DomIter
deriving Repr

/-- The review dict pushed for one accepted review (lines 130-141 and
208-219). -/
def mkReview (app : AppRec) (title text date reviewer rating source : String) : Review :=
  { platform := "shopify"
    app_name := app.app_name.getD ""
    app_url := app.app_url
    category_url := app.category_url
    review_title := title
    review_text := text
    review_date := date
    reviewer := reviewer
    rating := rating
    source := source }

/-- Structured-pass dedup key (line 126):
`(r["review_title"] + "|" + r["review_text"][:80]).strip()`. -/
def jsonldKey (r : RawReview) : String :=
  pyStrip (r.review_title ++ ("|") ++ pyTake 80 r.review_text)

/-- DOM-pass dedup key (line 203): `(title + "|" + body[:90]).strip()`. -/
def domKey (title body : String) : String :=
  pyStrip (title ++ ("|") ++ pyTake 90 body)

/-- Result of the structured-data loop: accumulated reviews, the shared
`seen` key set, and whether `max_reviews` was hit (early return). -/
structure JsonldOut where
  revs : List Review
  seen : List String
  early : Bool

/-- The JSON-LD review loop (lines 125-143). -/
def jsonldLoop (app : AppRec) (maxR : Nat) :
    List RawReview → List String → List Review → JsonldOut
  | [], seen, revs => ⟨revs, seen, false⟩
  | r :: rest, seen, revs =>
    let key := jsonldKey r
    if key = "" ∨ key ∈ seen then jsonldLoop app maxR rest seen revs
    else
      let seen2 := key :: seen
      let revs2 := revs ++
        [mkReview app r.review_title r.review_text r.review_date r.reviewer r.rating ("jsonld")]
      if maxR ≤ revs2.length then ⟨revs2, seen2, true⟩
      else jsonldLoop app maxR rest seen2 revs2

/-- Result of the per-iteration card loop: reviews, seen set, elapsed time,
and whether `max_reviews` was hit (early return from the whole harvest). -/
structure CardOut where
  revs : List Review
  seen : List String
  t : Nat
  early : Bool

/-- The per-iteration card scan (lines 180-222): deadline check before each
card, noise filter `len(body) < 40`, aria rating, dedup key, append, early
return at `max_reviews`. -/
def cardLoop (app : AppRec) (maxR budget : Nat) :
    List Card → List String → List Review → Nat → CardOut
  | [], seen, revs, t => ⟨revs, seen, t, false⟩
  | c :: rest, seen, revs, t =>
    if budget < t then ⟨revs, seen, t, false⟩
    else
      let t2 := t + c.dur
      if pyLen c.body < 40 then cardLoop app maxR budget rest seen revs t2
      else
        let key := domKey c.title c.body
        if key = "" ∨ key ∈ seen then cardLoop app maxR budget rest seen revs t2
        else
          let seen2 := key :: seen
          let revs2 := revs ++
            [mkReview app c.title c.body c.date c.reviewer (ratingOf c.aria) ("dom")]
          if maxR ≤ revs2.length then ⟨revs2, seen2, t2, true⟩
          else cardLoop app maxR budget rest seen2 revs2 t2

/-- Result of the DOM pagination loop. -/
structure DomOut where
  revs : List Review
  t : Nat

/-- The DOM pagination loop (lines 164-246): per iteration a deadline check,
scroll, card query capped at 120, the empty-first-page bailout, the card
scan, the "Reviews" keyword check, then "Load more" and "Next" click
attempts (each time-consuming even when the click fails). -/
def domLoop (app : AppRec) (maxR budget : Nat) :
    Nat → Bool → List DomIter → List String → List Review → Nat → DomOut
  | 0, _, _, _, revs, t => ⟨revs, t⟩
  | _ + 1, _, [], _, revs, t => ⟨revs, t⟩
  | fuel + 1, first, iter :: rest, seen, revs, t =>
    if budget < t then ⟨revs, t⟩
    else
      let t1 := t + iter.scrollDur
      let cards := iter.cards.take 120
      if cards.isEmpty ∧ first ∧ revs.isEmpty then ⟨revs, t1⟩
      else
        let co := cardLoop app maxR budget cards seen revs t1
        if co.early then ⟨co.revs, co.t⟩
        else if ¬ iter.hasReviewsText then ⟨co.revs, co.t⟩
        else if iter.loadMorePresent then
          let t2 := co.t + iter.loadMoreDur
          if iter.loadMoreOk then domLoop app maxR budget fuel false rest co.seen co.revs t2
          else if ¬ iter.nextPresent then ⟨co.revs, t2⟩
          else
            let t3 := t2 + iter.nextDur
            if iter.nextOk then domLoop app maxR budget fuel false rest co.seen co.revs t3
            else ⟨co.revs, t3⟩
        else if ¬ iter.nextPresent then ⟨co.revs, co.t⟩
        else
          let t3 := co.t + iter.nextDur
          if iter.nextOk then domLoop app maxR budget fuel false rest co.seen co.revs t3
          else ⟨co.revs, t3⟩

/-- The harvest's result: the returned review list, the (possibly
enriched) shared app record, and the total elapsed time. -/
structure HarvestResult where
  reviews : List Review
  app : AppRec
  t : Nat

/-- `extract_shopify_reviews(page, app, max_reviews, max_pages,
time_budget_sec)` (lines 106-252): navigate (a failure returns the empty
partial result), backfill `app["price"]` and `app["app_name"]` if unset,
run the structured pass (early return at `max_reviews`), then the DOM
pagination loop. -/
def extract_shopify_reviews (page : HarvestPage) (app : AppRec)
    (maxR maxPages budget : Nat) : HarvestResult :=
  if page.gotoFails then ⟨[], app, 0⟩
  else
    let app1 := if app.price.getD "" = "" then { app with price := some page.priceText } else app
    let app2 :=
      if (match app1.app_name with
          | none => true
          | some s => pyStrip s = "") then
        { app1 with app_name := some page.h1Text }
      else app1
    let jo := jsonldLoop app2 maxR page.jsonld [] []
    if jo.early then ⟨jo.revs, app2, page.initDur⟩
    else
      let dres := domLoop app2 maxR budget maxPages true page.domIters jo.seen jo.revs
        (page.initDur + page.preLoopDur)
      ⟨dres.revs, app2, dres.t⟩

/-! ## Claim C4: review budget bounds -/

/-- All abstract durations of one DOM iteration bounded by `U`. -/
def iterBounded (U : Nat) (it : DomIter) : Prop :=
  it.scrollDur ≤ U ∧ it.loadMoreDur ≤ U ∧ it.nextDur ≤ U ∧ ∀ c ∈ it.cards, c.dur ≤ U

instance (U : Nat) (it : DomIter) : Decidable (iterBounded U it) := by
  unfold iterBounded; infer_instance

/-- All abstract durations of a harvest page bounded by `U`: every bounded
unit of driver work costs at most `U`. -/
def pageBounded (U : Nat) (p : HarvestPage) : Prop :=
  p.initDur ≤ U ∧ p.preLoopDur ≤ U ∧ ∀ it ∈ p.domIters, iterBounded U it

instance (U : Nat) (p : HarvestPage) : Decidable (pageBounded U p) := by
  unfold pageBounded; infer_instance

theorem jsonldLoop_len (app : AppRec) (maxR : Nat) :
    ∀ (rrs : List RawReview) (seen : List String) (revs : List Review),
      revs.length < maxR →
      (jsonldLoop app maxR rrs seen revs).revs.length ≤ maxR ∧
      ((jsonldLoop app maxR rrs seen revs).early = false →
        (jsonldLoop app maxR rrs seen revs).revs.length < maxR) := by
  intro rrs
  induction rrs with
  | nil =>
    intro seen revs hlen
    simp only [jsonldLoop]
    exact ⟨hlen.le, fun _ => hlen⟩
  | cons r rest ih =>
    intro seen revs hlen
    simp only [jsonldLoop]
    by_cases hkey : jsonldKey r = "" ∨ jsonldKey r ∈ seen
    · rw [if_pos hkey]
      exact ih seen revs hlen
    · rw [if_neg hkey]
      by_cases hmax : maxR ≤ (revs ++
          [mkReview app r.review_title r.review_text r.review_date r.reviewer r.rating
            ("jsonld")]).length
      · rw [if_pos hmax]
        refine ⟨?_, fun h => by simp at h⟩
        simp only [List.length_append, List.length_singleton]
        omega
      · rw [if_neg hmax]
        refine ih _ _ ?_
        simp only [List.length_append, List.length_singleton] at hmax ⊢
        omega

theorem cardLoop_spec (app : AppRec) (maxR budget U : Nat) :
    ∀ (cards : List Card) (seen : List String) (revs : List Review) (t : Nat),
      revs.length < maxR →
      (∀ c ∈ cards, c.dur ≤ U) →
      t ≤ budget + U →
      (cardLoop app maxR budget cards seen revs t).revs.length ≤ maxR ∧
      ((cardLoop app maxR budget cards seen revs t).early = false →
        (cardLoop app maxR budget cards seen revs t).revs.length < maxR) ∧
      (cardLoop app maxR budget cards seen revs t).t ≤ budget + U := by
  intro cards
  induction cards with
  | nil =>
    intro seen revs t hlen _ ht
    simp only [cardLoop]
    exact ⟨hlen.le, fun _ => hlen, ht⟩
  | cons c rest ih =>
    intro seen revs t hlen hdur ht
    simp only [cardLoop]
    by_cases hb : budget < t
    · rw [if_pos hb]
      exact ⟨hlen.le, fun _ => hlen, ht⟩
    · rw [if_neg hb]
      have ht2 : t + c.dur ≤ budget + U := by
        have := hdur c (by simp)
        omega
      have hdur2 : ∀ x ∈ rest, x.dur ≤ U := fun x hx => hdur x (by simp [hx])
      by_cases hshort : pyLen c.body < 40
      · rw [if_pos hshort]
        exact ih seen revs (t + c.dur) hlen hdur2 ht2
      · rw [if_neg hshort]
        by_cases hkey : domKey c.title c.body = "" ∨ domKey c.title c.body ∈ seen
        · rw [if_pos hkey]
          exact ih seen revs (t + c.dur) hlen hdur2 ht2
        · rw [if_neg hkey]
          by_cases hmax : maxR ≤ (revs ++
              [mkReview app c.title c.body c.date c.reviewer (ratingOf c.aria)
                ("dom")]).length
          · rw [if_pos hmax]
            refine ⟨?_, fun h => by simp at h, ht2⟩
            simp only [List.length_append, List.length_singleton]
            omega
          · rw [if_neg hmax]
            refine ih _ _ _ ?_ hdur2 ht2
            simp only [List.length_append, List.length_singleton] at hmax ⊢
            omega

theorem domLoop_spec (app : AppRec) (maxR budget U : Nat) :
    ∀ (fuel : Nat) (first : Bool) (iters : List DomIter) (seen : List String)
      (revs : List Review) (t : Nat),
      revs.length < maxR →
      (∀ it ∈ iters, iterBounded U it) →
      t ≤ budget + 3 * U →
      (domLoop app maxR budget fuel first iters seen revs t).revs.length ≤ maxR ∧
      (domLoop app maxR budget fuel first iters seen revs t).t ≤ budget + 3 * U := by
  intro fuel
  induction fuel with
  | zero =>
    intro first iters seen revs t hlen _ ht
    simp only [domLoop]
    exact ⟨hlen.le, ht⟩
  | succ f ih =>
    intro first iters seen revs t hlen hits ht
    cases iters with
    | nil =>
      simp only [domLoop]
      exact ⟨hlen.le, ht⟩
    | cons iter rest =>
      simp only [domLoop]
      by_cases hb : budget < t
      · rw [if_pos hb]
        exact ⟨hlen.le, ht⟩
      · rw [if_neg hb]
        obtain ⟨hscroll, hlm, hnx, hcards⟩ := hits iter (by simp)
        have hrest : ∀ it ∈ rest, iterBounded U it := fun it hx => hits it (by simp [hx])
        have ht0 : t ≤ budget := by omega
        have ht1 : t + iter.scrollDur ≤ budget + U := by omega
        by_cases hempty : (iter.cards.take 120).isEmpty = true ∧ first = true ∧
            revs.isEmpty = true
        · rw [if_pos hempty]
          exact ⟨hlen.le, by dsimp only; omega⟩
        · rw [if_neg hempty]
          obtain ⟨hcoLen, hcoLt, hcoT⟩ := cardLoop_spec app maxR budget U
            (iter.cards.take 120) seen revs (t + iter.scrollDur) hlen
            (fun c hc => hcards c (List.take_subset _ _ hc)) ht1
          set co := cardLoop app maxR budget (iter.cards.take 120) seen revs
            (t + iter.scrollDur) with hco
          by_cases he : co.early = true
          · rw [if_pos he]
            exact ⟨hcoLen, by dsimp only; omega⟩
          · rw [if_neg he]
            have hlt : co.revs.length < maxR := hcoLt (by simpa using he)
            by_cases hrev : iter.hasReviewsText = true
            · rw [if_neg (by simp [hrev])]
              by_cases hlmp : iter.loadMorePresent = true
              · rw [if_pos hlmp]
                by_cases hlmo : iter.loadMoreOk = true
                · rw [if_pos hlmo]
                  exact ih false rest co.seen co.revs (co.t + iter.loadMoreDur)
                    hlt hrest (by omega)
                · rw [if_neg hlmo]
                  by_cases hnp : iter.nextPresent = true
                  · rw [if_neg (by simp [hnp])]
                    by_cases hno : iter.nextOk = true
                    · rw [if_pos hno]
                      exact ih false rest co.seen co.revs
                        (co.t + iter.loadMoreDur + iter.nextDur) hlt hrest (by omega)
                    · rw [if_neg hno]
                      exact ⟨hlt.le, by dsimp only; omega⟩
                  · rw [if_pos (by simp [hnp])]
                    exact ⟨hlt.le, by dsimp only; omega⟩
              · rw [if_neg hlmp]
                by_cases hnp : iter.nextPresent = true
                · rw [if_neg (by simp [hnp])]
                  by_cases hno : iter.nextOk = true
                  · rw [if_pos hno]
                    exact ih false rest co.seen co.revs (co.t + iter.nextDur)
                      hlt hrest (by omega)
                  · rw [if_neg hno]
                    exact ⟨hlt.le, by dsimp only; omega⟩
                · rw [if_pos (by simp [hnp])]
                  exact ⟨hlt.le, by dsimp only; omega⟩
            · rw [if_pos (by simp [hrev])]
              exact ⟨hlt.le, by dsimp only; omega⟩

/-- C4, amended.  For `max_reviews ≥ 1` the harvester returns at most
`max_reviews` reviews; and when every bounded unit of in-flight driver work
costs at most `U`, the harvester stops within `time_budget + 3·U`: the
deadline is checked at every page-iteration and card-iteration boundary,
but after a deadline hit inside the card loop the code still attempts the
"Load more" and "Next" clicks before the page-boundary check fires, so up
to one scan unit plus two pagination click-waits can run past the budget
(not just one unit, as the original claim states). -/
theorem c4_amended (page : HarvestPage) (app : AppRec) (maxR maxPages budget U : Nat)
    (hmax : 1 ≤ maxR) (hb : pageBounded U page) :
    (extract_shopify_reviews page app maxR maxPages budget).reviews.length ≤ maxR ∧
    (extract_shopify_reviews page app maxR maxPages budget).t ≤ budget + 3 * U := by
  obtain ⟨hinit, hpre, hiters⟩ := hb
  unfold extract_shopify_reviews
  by_cases hg : page.gotoFails = true
  · rw [if_pos hg]
    exact ⟨by simp, by simp⟩
  · rw [if_neg hg]
    set app1 := if app.price.getD "" = "" then { app with price := some page.priceText }
      else app with happ1
    set app2 :=
      if (match app1.app_name with
          | none => true
          | some s => pyStrip s = "") then
        { app1 with app_name := some page.h1Text }
      else app1 with happ2
    obtain ⟨hjLen, hjLt⟩ := jsonldLoop_len app2 maxR page.jsonld [] []
      (by simp only [List.length_nil]; omega)
    set jo := jsonldLoop app2 maxR page.jsonld [] [] with hjo
    by_cases hearly : jo.early = true
    · rw [if_pos hearly]
      exact ⟨hjLen, by dsimp only; omega⟩
    · rw [if_neg hearly]
      obtain ⟨hdLen, hdT⟩ := domLoop_spec app2 maxR budget U maxPages true page.domIters
        jo.seen jo.revs (page.initDur + page.preLoopDur)
        (hjLt (by simpa using hearly)) hiters (by omega)
      exact ⟨hdLen, hdT⟩

/-- Inputs for the C4 counterexample: budget 10, every unit ≤ 11; one card
costing 11 pushes `t` to 11, the next card-boundary check fires, and the
"Load more" click (11 more) still runs before the page-boundary check
stops the loop, giving t = 22 > 10 + 11.  The second page has one
structured review and `max_reviews = 0`, yet one review is returned. -/
def c4app : AppRec :=
  ⟨("https://apps.shopify.com/app-x"), some ("App X"), some ("$5"), ("https://c"), []⟩

/-- Long card/review body (86 characters, passes the 40-char noise filter). -/
def c4body : String :=
  ("This app is great and does exactly what we need for our busy store - recommended a lot")

/-- C4 counterexample DOM iteration: two long cards of cost 11 each, a
"Reviews" keyword, and an actionable "Load more" costing 11. -/
def c4iter : DomIter :=
  ⟨0, [⟨11, c4body, ("T1"), ("d"), ("rv"), ("")⟩,
       ⟨11, ("Another quite long review body exceeding forty characters easily!!"),
         ("T2"), ("d"), ("rv"), ("")⟩],
    true, true, 11, true, false, 0, false⟩

/-- C4 counterexample page for the timing half. -/
def c4pageT : HarvestPage := ⟨false, 0, 0, ("p"), ("h"), [], [c4iter, c4iter]⟩

/-- C4 counterexample page for the `max_reviews = 0` half. -/
def c4pageZ : HarvestPage :=
  ⟨false, 0, 0, ("p"), ("h"), [⟨("T"), c4body, ("d"), ("r"), ("5")⟩], []⟩

/-- C4, counterexample.  (a) With `time_budget = 10` and every bounded unit
≤ 11, the harvester runs to t = 22 > 10 + 11 = budget + one unit, because
the pagination click after the card loop is not preceded by a deadline
check.  (b) With `max_reviews = 0` the harvester still returns 1 review,
because the `len(reviews) >= max_reviews` test runs only after an append. -/
theorem c4_counterexample :
    (pageBounded 11 c4pageT ∧
      10 + 11 < (extract_shopify_reviews c4pageT c4app 20 3 10).t) ∧
    ¬ (extract_shopify_reviews c4pageZ c4app 0 3 25).reviews.length ≤ 0 := by
  exact ⟨⟨by decide, by decide⟩, by decide⟩

/-- C4, witness: the amended bound applied at the timing page with
`max_reviews = 20`, `U = 11`, budget 10. -/
theorem c4_amended_witness :
    (1 ≤ 20 ∧ pageBounded 11 c4pageT) ∧
    ((extract_shopify_reviews c4pageT c4app 20 3 10).reviews.length ≤ 20 ∧
     (extract_shopify_reviews c4pageT c4app 20 3 10).t ≤ 10 + 3 * 11) :=
  ⟨⟨by decide, by decide⟩, c4_amended c4pageT c4app 20 3 10 11 (by decide) (by decide)⟩

/-! ## Claim C3: cross-pass review dedup -/

/-- C3 failing input: the same review (title "Great app", identical
86-character body) surfaced by both the structured pass and the DOM pass. -/
def c3app : AppRec :=
  ⟨("https://apps.shopify.com/app-x"), some ("App X"), some ("$5"), ("https://c"), []⟩

/-- The shared 86-character review body of the C3 failing input. -/
def c3body : String :=
  ("This app is great and does exactly what we need for our busy store - recommended a lot")

/-- C3 failing page: one JSON-LD review and one DOM card describing the
same review, with identical title and identical (full) body. -/
def c3page : HarvestPage :=
  ⟨false, 0, 0, ("$9"), ("H1"),
    [⟨("Great app"), c3body, ("2024"), ("Ann"), ("5")⟩],
    [⟨0, [⟨0, c3body, ("Great app"), ("2024"), ("Ann"), ("4.8 out of 5 stars")⟩],
      true, false, 0, false, false, 0, false⟩]⟩

/-- C3, evaluation at the failing input.  The structured pass stores the
dedup key `title|body[:80]` while the DOM pass checks `title|body[:90]`;
for an 86-character body these differ, so the identical review (same title,
same first-90-characters — indeed same full body) appears TWICE, once per
source, instead of collapsing to the single structured entry the claim
describes. -/
theorem c3_code_bug_eval :
    pyLen c3body = 86 ∧
    jsonldKey ⟨("Great app"), c3body, ("2024"), ("Ann"), ("5")⟩
      ≠ domKey ("Great app") c3body ∧
    ((extract_shopify_reviews c3page c3app 20 3 25).reviews.map
        (fun r => (r.source, r.review_title, r.review_text)))
      = [(("jsonld"), ("Great app"), c3body), (("dom"), ("Great app"), c3body)] := by
  exact ⟨by decide, by decide, by decide⟩

/-! ## Claim C9: harvester frame on the shared app record -/

/-- C9, amended.  The harvester may only backfill: a price that is present
and non-empty is never overwritten, a name that is present and non-blank
(nonempty after strip) is never overwritten, and no other field of the
record is touched; conversely a field that does change was unset, empty, or
(for the name) whitespace-only.  The original claim's "non-empty name is
unchanged" fails for whitespace-only names — see the counterexample. -/
theorem c9_amended (page : HarvestPage) (app : AppRec) (maxR maxPages budget : Nat) :
    ((extract_shopify_reviews page app maxR maxPages budget).app.app_url = app.app_url) ∧
    ((extract_shopify_reviews page app maxR maxPages budget).app.category_url
      = app.category_url) ∧
    ((extract_shopify_reviews page app maxR maxPages budget).app.others = app.others) ∧
    (app.price ≠ none → app.price ≠ some ("") →
      (extract_shopify_reviews page app maxR maxPages budget).app.price = app.price) ∧
    (∀ s, app.app_name = some s → pyStrip s ≠ "" →
      (extract_shopify_reviews page app maxR maxPages budget).app.app_name
        = app.app_name) ∧
    ((extract_shopify_reviews page app maxR maxPages budget).app.price ≠ app.price →
      app.price = none ∨ app.price = some ("")) ∧
    ((extract_shopify_reviews page app maxR maxPages budget).app.app_name ≠ app.app_name →
      app.app_name = none ∨ pyStrip (app.app_name.getD "") = "") := by
  have happ : (extract_shopify_reviews page app maxR maxPages budget).app =
      (if page.gotoFails then app
       else
        let app1 := if app.price.getD "" = "" then { app with price := some page.priceText }
          else app
        if (match app1.app_name with
            | none => true
            | some s => pyStrip s = "") then
          { app1 with app_name := some page.h1Text }
        else app1) := by
    unfold extract_shopify_reviews
    by_cases hg : page.gotoFails = true
    · rw [if_pos hg, if_pos hg]
    · rw [if_neg hg, if_neg hg]
      dsimp only
      by_cases hearly :
          (jsonldLoop
            (if (match (if app.price.getD "" = ""
                then { app with price := some page.priceText } else app).app_name with
                | none => true
                | some s => pyStrip s = "") then
              { (if app.price.getD "" = "" then { app with price := some page.priceText }
                  else app) with app_name := some page.h1Text }
             else (if app.price.getD "" = "" then { app with price := some page.priceText }
                else app))
            maxR page.jsonld [] []).early = true
      · rw [if_pos hearly]
      · rw [if_neg hearly]
  rw [happ]
  by_cases hg : page.gotoFails = true
  · rw [if_pos hg]
    refine ⟨rfl, rfl, rfl, fun _ _ => rfl, fun s _ _ => rfl, fun h => absurd rfl h,
      fun h => absurd rfl h⟩
  · rw [if_neg hg]
    dsimp only
    by_cases hp : app.price.getD "" = ""
    · rw [if_pos hp]
      by_cases hn : (match ({ app with price := some page.priceText } : AppRec).app_name with
          | none => true
          | some s => pyStrip s = "")
      · rw [if_pos hn]
        refine ⟨rfl, rfl, rfl, ?_, ?_, ?_, ?_⟩
        · intro h1 h2
          exfalso
          cases hv : app.price with
          | none => exact h1 hv
          | some v =>
            rw [hv] at hp
            simp only [Option.getD_some] at hp
            exact h2 (by rw [hv, hp])
        · intro s hs hstrip
          exfalso
          simp only [hs] at hn
          exact hstrip (of_decide_eq_true hn)
        · intro _
          cases hv : app.price with
          | none => exact Or.inl rfl
          | some v =>
            rw [hv] at hp
            simp only [Option.getD_some] at hp
            exact Or.inr (by rw [hp])
        · intro _
          cases hv : app.app_name with
          | none => exact Or.inl rfl
          | some v =>
            simp only [hv] at hn
            exact Or.inr (by
              simp only [Option.getD_some]
              exact of_decide_eq_true hn)
      · rw [if_neg hn]
        refine ⟨rfl, rfl, rfl, ?_, fun s _ _ => rfl, ?_, fun h => absurd rfl h⟩
        · intro h1 h2
          exfalso
          cases hv : app.price with
          | none => exact h1 hv
          | some v =>
            rw [hv] at hp
            simp only [Option.getD_some] at hp
            exact h2 (by rw [hv, hp])
        · intro _
          cases hv : app.price with
          | none => exact Or.inl rfl
          | some v =>
            rw [hv] at hp
            simp only [Option.getD_some] at hp
            exact Or.inr (by rw [hp])
    · rw [if_neg hp]
      by_cases hn : (match app.app_name with
          | none => true
          | some s => pyStrip s = "")
      · rw [if_pos hn]
        refine ⟨rfl, rfl, rfl, fun _ _ => rfl, ?_, fun h => absurd rfl h, ?_⟩
        · intro s hs hstrip
          exfalso
          simp only [hs] at hn
          exact hstrip (of_decide_eq_true hn)
        · intro _
          cases hv : app.app_name with
          | none => exact Or.inl rfl
          | some v =>
            simp only [hv] at hn
            exact Or.inr (by
              simp only [Option.getD_some]
              exact of_decide_eq_true hn)
      · rw [if_neg hn]
        exact ⟨rfl, rfl, rfl, fun _ _ => rfl, fun s _ _ => rfl,
          fun h => absurd rfl h, fun h => absurd rfl h⟩

/-- C9 counterexample page: a real h1 name is available. -/
def c9page : HarvestPage := ⟨false, 0, 0, ("$9"), ("Real Name"), [], []⟩

/-- C9 counterexample app: the shared record arrives with the non-empty
(but whitespace-only) name `" "` and a non-empty price. -/
def c9app : AppRec :=
  ⟨("https://apps.shopify.com/app-x"), some (" "), some ("$5"), ("c"), []⟩

/-- C9, counterexample.  `" "` is a non-empty value, yet the harvester
overwrites it (the code treats a name as unset when `strip()` empties it),
contradicting the claim that an already-populated non-empty name field is
unchanged. -/
theorem c9_counterexample :
    c9app.app_name = some (" ") ∧ (" " : String) ≠ ("") ∧
    (extract_shopify_reviews c9page c9app 5 3 25).app.app_name = some ("Real Name") := by
  exact ⟨rfl, by decide, by decide⟩

/-- C9 witness app: non-empty price and non-blank name. -/
def c9wapp : AppRec :=
  ⟨("https://apps.shopify.com/app-x"), some ("App X"), some ("$5"), ("c"), []⟩

/-- C9, witness: on a record with non-empty price `"$5"` and non-blank name
`"App X"`, the harvester changes neither, and touches no other field. -/
theorem c9_amended_witness :
    (extract_shopify_reviews c9page c9wapp 5 3 25).app.price = some ("$5") ∧
    (extract_shopify_reviews c9page c9wapp 5 3 25).app.app_name = some ("App X") ∧
    (extract_shopify_reviews c9page c9wapp 5 3 25).app.app_url = c9wapp.app_url := by
  have h := c9_amended c9page c9wapp 5 3 25
  refine ⟨?_, ?_, h.1⟩
  · rw [h.2.2.2.1 (by decide) (by decide)]
    decide
  · rw [h.2.2.2.2.1 ("App X") rfl (by decide)]
    decide

/-! ## Run aggregation / orchestration (`src/main.py`, `run_shopify_actor`) -/

/-- One enriched app record as the aggregation loop sees it: only its
`products_url` / `product_url` entries are read; `tag` stands for the rest
of the dict's payload. -/
structure AggRecord where
  products_url : Option String
  product_url : Option String
  tag : Nat
deriving DecidableEq, Repr

/-- Python `a or b` on optional strings: `a` when present and non-empty,
else `b`. -/
def pyOrStr (a b : Option String) : Option String :=
  match a with
  | some s => if s = "" then b else some s
  | none => b

/-- The dedup URL of a record (line 405):
`(rec.get("products_url") or rec.get("product_url") or "").strip()`. -/
def urlOf (r : AggRecord) : String :=
  (pyOrStr r.products_url (pyOrStr r.product_url (some ("")))).getD "" |> pyStrip

/-- One per-category stats entry (lines 436-443). -/
structure CatStat where
  category : String
  items_exported : Nat
  csv : Option String
  xlsx : Option String
deriving DecidableEq, Repr

/-- The run-wide mutable state of `run_shopify_actor` (lines 377-383). -/
structure RunState where
  pushed : Nat
  seen_urls : List String
  skipped_dupes : Nat
  all_results : List AggRecord
  category_stats : List CatStat
  generated_files : List String
deriving DecidableEq, Repr

/-- The state threaded through one category's record loop: the run-wide
`seen_urls`/`skipped_dupes`/`pushed`/`all_results_for_files` plus the
category-local `per_cat_results`. -/
structure CoreState where
  seen : List String
  skipped : Nat
  pushed : Nat
  perCat : List AggRecord
  all : List AggRecord
deriving DecidableEq, Repr

/-- One iteration of the per-record dedup loop (lines 404-416): a record
with a non-empty URL already in `seen_urls` only bumps `skipped_dupes` and
is dropped; a record with a fresh non-empty URL registers it; every
non-skipped record is pushed and appended to both collections; a record
with a missing/empty URL bypasses the dedup entirely. -/
def recStep (st : CoreState) (r : AggRecord) : CoreState :=
  let url := urlOf r
  if url ≠ "" then
    if url ∈ st.seen then { st with skipped := st.skipped + 1 }
    else
      { st with
        seen := url :: st.seen
        pushed := st.pushed + 1
        perCat := st.perCat ++ [r]
        all := st.all ++ [r] }
  else
    { st with
      pushed := st.pushed + 1
      perCat := st.perCat ++ [r]
      all := st.all ++ [r] }

/-- The whole per-category record loop. -/
def coreFold (st : CoreState) (l : List AggRecord) : CoreState := l.foldl recStep st

/-- Helper for `_slug`: collapse consecutive dashes (the `+` of
`re.sub(r"[^a-z0-9]+", "-", s)`). -/
def slugCollapse : List Char → List Char
  | [] => []
  | [c] => [c]
  | a :: b :: rest =>
    if a = '-' ∧ b = '-' then slugCollapse (b :: rest)
    else a :: slugCollapse (b :: rest)

/-- Characters kept by `_slug` after lowercasing. -/
def slugOk (c : Char) : Bool := ('a' ≤ c ∧ c ≤ 'z') ∨ ('0' ≤ c ∧ c ≤ '9')

/-- `_slug(s)` (lines 123-126): strip, lowercase, replace runs of
non-alphanumerics with a single dash, strip dashes, default `"category"`.
(The `cat.get("name") or "category"` of line 402 lands on the same default
for an empty name.) -/
def pySlug (s : String) : String :=
  let r := stripCharChars '-'
    (slugCollapse (((stripWsChars s.data).map Char.toLower).map
      (fun c => if slugOk c then c else '-')))
  if r = [] then ("category") else ⟨r⟩

/-- Processing of one category inside the run loop (lines 398-443): run the
record loop, then — only when exporting is on and the category produced at
least one record — write the two per-category files and append the stats
entry.  A category with no records leaves stats and files untouched. -/
def catStep (exportCsv exportXlsx : Bool) (ts : String) (st : RunState)
    (cat : Category) (apps : List AggRecord) : RunState :=
  let slug := pySlug cat.name
  let core := coreFold ⟨st.seen_urls, st.skipped_dupes, st.pushed, [], st.all_results⟩ apps
  let st2 : RunState :=
    { st with
      pushed := core.pushed
      seen_urls := core.seen
      skipped_dupes := core.skipped
      all_results := core.all }
  if (exportCsv = true ∨ exportXlsx = true) ∧ core.perCat ≠ [] then
    { st2 with
      generated_files := st2.generated_files ++
        (if exportCsv then [("OUTPUT_") ++ slug ++ ("_") ++ ts ++ (".csv")] else []) ++
        (if exportXlsx then [("OUTPUT_") ++ slug ++ ("_") ++ ts ++ (".xlsx")] else [])
      category_stats := st2.category_stats ++
        [⟨cat.name, core.perCat.length,
          if exportCsv then some (("OUTPUT_") ++ slug ++ ("_") ++ ts ++ (".csv")) else none,
          if exportXlsx then some (("OUTPUT_") ++ slug ++ ("_") ++ ts ++ (".xlsx"))
          else none⟩] }
  else st2

/-- The run summary record (lines 476-493), restricted to the fields the
core produces (config echoes omitted). -/
structure RunSummary where
  timestamp : String
  categories_selected : List String
  skipped_duplicates : Nat
  pushed_to_dataset : Nat
  per_category : List CatStat
  combined_items : Nat
  combined_csv : Option String
  combined_xlsx : Option String
  files_generated : List String
deriving DecidableEq, Repr

/-- `run_shopify_actor` (lines 377-493), abstracted over the per-category
scrape results: fold the category loop from the empty run state, do the
combined export when there are results, and produce the summary. -/
def run_shopify_actor (exportCsv exportXlsx : Bool) (ts : String)
    (catApps : List (Category × List AggRecord)) : RunState × RunSummary :=
  let st1 := catApps.foldl (fun st ca => catStep exportCsv exportXlsx ts st ca.1 ca.2)
    (⟨0, [], 0, [], [], []⟩ : RunState)
  let st2 :=
    if (exportCsv = true ∨ exportXlsx = true) ∧ st1.all_results ≠ [] then
      { st1 with
        generated_files := st1.generated_files ++
          (if exportCsv then [("OUTPUT_") ++ ts ++ (".csv")] else []) ++
          (if exportXlsx then [("OUTPUT_") ++ ts ++ (".xlsx")] else []) }
    else st1
  (st2,
   { timestamp := ts
     categories_selected := catApps.map (fun ca => ca.1.name)
     skipped_duplicates := st2.skipped_dupes
     pushed_to_dataset := st2.pushed
     per_category := st2.category_stats
     combined_items := st2.all_results.length
     combined_csv := if exportCsv then some (("OUTPUT_") ++ ts ++ (".csv")) else none
     combined_xlsx := if exportXlsx then some (("OUTPUT_") ++ ts ++ (".xlsx")) else none
     files_generated := st2.generated_files })

/-! ## Dedup-loop analysis -/

/-- The run-wide projection of the record-loop state (the fields that
survive across categories). -/
structure DedupState where
  seen : List String
  skipped : Nat
  pushed : Nat
  all : List AggRecord
deriving DecidableEq, Repr

/-- `recStep` restricted to the run-wide fields. -/
def dstep (st : DedupState) (r : AggRecord) : DedupState :=
  let url := urlOf r
  if url ≠ "" then
    if url ∈ st.seen then { st with skipped := st.skipped + 1 }
    else
      { st with
        seen := url :: st.seen
        pushed := st.pushed + 1
        all := st.all ++ [r] }
  else
    { st with
      pushed := st.pushed + 1
      all := st.all ++ [r] }

/-- The record loop on the run-wide fields. -/
def dfold (st : DedupState) (l : List AggRecord) : DedupState := l.foldl dstep st

/-- Projection from the category-local loop state. -/
def coreProj (cs : CoreState) : DedupState := ⟨cs.seen, cs.skipped, cs.pushed, cs.all⟩

/-- Projection from the run state. -/
def runProj (st : RunState) : DedupState :=
  ⟨st.seen_urls, st.skipped_dupes, st.pushed, st.all_results⟩

theorem recStep_proj (cs : CoreState) (r : AggRecord) :
    coreProj (recStep cs r) = dstep (coreProj cs) r := by
  unfold recStep dstep coreProj
  by_cases h1 : urlOf r ≠ ""
  · rw [if_pos h1, if_pos h1]
    by_cases h2 : urlOf r ∈ cs.seen
    · rw [if_pos h2, if_pos h2]
    · rw [if_neg h2, if_neg h2]
  · rw [if_neg h1, if_neg h1]

theorem coreFold_proj (l : List AggRecord) :
    ∀ cs : CoreState, coreProj (coreFold cs l) = dfold (coreProj cs) l := by
  induction l with
  | nil => intro cs; rfl
  | cons r rest ih =>
    intro cs
    show coreProj (coreFold (recStep cs r) rest) = dfold (dstep (coreProj cs) r) rest
    rw [ih (recStep cs r), recStep_proj]

theorem catStep_proj (ec ex : Bool) (ts : String) (st : RunState) (c : Category)
    (apps : List AggRecord) :
    runProj (catStep ec ex ts st c apps) = dfold (runProj st) apps := by
  unfold catStep
  have hcore : coreProj (coreFold ⟨st.seen_urls, st.skipped_dupes, st.pushed, [],
      st.all_results⟩ apps) = dfold (runProj st) apps := by
    rw [coreFold_proj]
    rfl
  by_cases hif : (ec = true ∨ ex = true) ∧
      (coreFold ⟨st.seen_urls, st.skipped_dupes, st.pushed, [], st.all_results⟩
        apps).perCat ≠ []
  · rw [if_pos hif]
    rw [← hcore]
    rfl
  · rw [if_neg hif]
    rw [← hcore]
    rfl

theorem run_proj_fold (ec ex : Bool) (ts : String) :
    ∀ (catApps : List (Category × List AggRecord)) (st : RunState),
      runProj (catApps.foldl (fun s ca => catStep ec ex ts s ca.1 ca.2) st)
        = dfold (runProj st) (catApps.map Prod.snd).flatten := by
  intro catApps
  induction catApps with
  | nil => intro st; rfl
  | cons ca rest ih =>
    intro st
    show runProj (rest.foldl _ (catStep ec ex ts st ca.1 ca.2))
      = dfold (runProj st) ((ca.2 :: rest.map Prod.snd).flatten)
    rw [ih, catStep_proj]
    show dfold (dfold (runProj st) ca.2) (rest.map Prod.snd).flatten
      = dfold (runProj st) (ca.2 ++ (rest.map Prod.snd).flatten)
    unfold dfold
    rw [List.foldl_append]

theorem run_proj (ec ex : Bool) (ts : String)
    (catApps : List (Category × List AggRecord)) :
    runProj (run_shopify_actor ec ex ts catApps).1
      = dfold ⟨[], 0, 0, []⟩ (catApps.map Prod.snd).flatten := by
  unfold run_shopify_actor
  dsimp only
  have h := run_proj_fold ec ex ts catApps ⟨0, [], 0, [], [], []⟩
  by_cases hif : (ec = true ∨ ex = true) ∧
      (catApps.foldl (fun s ca => catStep ec ex ts s ca.1 ca.2)
        (⟨0, [], 0, [], [], []⟩ : RunState)).all_results ≠ []
  · rw [if_pos hif]
    exact h
  · rw [if_neg hif]
    exact h

theorem dfold_counts (l : List AggRecord) :
    ∀ st : DedupState,
      (dfold st l).skipped + (dfold st l).all.length
        = st.skipped + st.all.length + l.length := by
  induction l with
  | nil => intro st; simp [dfold]
  | cons r rest ih =>
    intro st
    show (dfold (dstep st r) rest).skipped + (dfold (dstep st r) rest).all.length = _
    by_cases h1 : urlOf r ≠ ""
    · by_cases h2 : urlOf r ∈ st.seen
      · have hd : dstep st r = { st with skipped := st.skipped + 1 } := by
          unfold dstep
          rw [if_pos h1, if_pos h2]
        rw [hd]
        have := ih { st with skipped := st.skipped + 1 }
        simp only [List.length_cons, List.length_nil] at *
        omega
      · have hd : dstep st r = { st with
            seen := urlOf r :: st.seen
            pushed := st.pushed + 1
            all := st.all ++ [r] } := by
          unfold dstep
          rw [if_pos h1, if_neg h2]
        rw [hd]
        have := ih { st with
          seen := urlOf r :: st.seen
          pushed := st.pushed + 1
          all := st.all ++ [r] }
        simp only [List.length_cons, List.length_append, List.length_singleton,
          List.length_nil] at *
        omega
    · have hd : dstep st r = { st with pushed := st.pushed + 1, all := st.all ++ [r] } := by
        unfold dstep
        rw [if_neg h1]
      rw [hd]
      have := ih { st with pushed := st.pushed + 1, all := st.all ++ [r] }
      simp only [List.length_cons, List.length_append, List.length_singleton,
        List.length_nil] at *
      omega

theorem dfold_dedup (l : List AggRecord) :
    ∀ st : DedupState,
      (∀ r ∈ l, urlOf r ≠ "") →
      (st.all.map urlOf).Nodup →
      (∀ u, u ∈ st.seen ↔ u ∈ st.all.map urlOf) →
      ((dfold st l).all.map urlOf).Nodup ∧
      (∀ u, u ∈ (dfold st l).seen ↔ u ∈ (dfold st l).all.map urlOf) ∧
      ((dfold st l).all.map urlOf).toFinset
        = (st.all.map urlOf).toFinset ∪ (l.map urlOf).toFinset := by
  induction l with
  | nil =>
    intro st _ h1 h2
    exact ⟨h1, h2, by simp [dfold]⟩
  | cons r rest ih =>
    intro st hl h1 h2
    have hr : urlOf r ≠ "" := hl r (by simp)
    have hrest : ∀ x ∈ rest, urlOf x ≠ "" := fun x hx => hl x (by simp [hx])
    have hstep : dfold st (r :: rest) = dfold (dstep st r) rest := rfl
    by_cases h2m : urlOf r ∈ st.seen
    · have hd : dstep st r = { st with skipped := st.skipped + 1 } := by
        unfold dstep
        rw [if_pos hr, if_pos h2m]
      rw [hstep, hd]
      obtain ⟨g1, g2, g3⟩ := ih { st with skipped := st.skipped + 1 } hrest h1 h2
      refine ⟨g1, g2, ?_⟩
      rw [g3]
      have hmem : urlOf r ∈ st.all.map urlOf := (h2 (urlOf r)).mp h2m
      ext a
      simp only [List.map_cons, List.toFinset_cons, Finset.mem_union, Finset.mem_insert,
        List.mem_toFinset]
      constructor
      · rintro (ha | ha)
        · exact Or.inl ha
        · exact Or.inr (Or.inr ha)
      · rintro (ha | ha | ha)
        · exact Or.inl ha
        · subst ha
          exact Or.inl hmem
        · exact Or.inr ha
    · have hd : dstep st r = { st with
          seen := urlOf r :: st.seen
          pushed := st.pushed + 1
          all := st.all ++ [r] } := by
        unfold dstep
        rw [if_pos hr, if_neg h2m]
      rw [hstep, hd]
      have hnotall : urlOf r ∉ st.all.map urlOf := fun hm => h2m ((h2 _).mpr hm)
      have h1' : ((st.all ++ [r]).map urlOf).Nodup := by
        rw [List.map_append, List.nodup_append]
        refine ⟨h1, by simp, ?_⟩
        intro a ha hb
        simp only [List.map_cons, List.map_nil, List.mem_singleton] at hb
        subst hb
        exact hnotall ha
      have h2' : ∀ u, u ∈ urlOf r :: st.seen ↔ u ∈ (st.all ++ [r]).map urlOf := by
        intro u
        rw [List.map_append]
        simp only [List.mem_cons, List.mem_append, List.map_cons, List.map_nil,
          List.mem_singleton]
        constructor
        · rintro (hu | hu)
          · exact Or.inr (Or.inl hu)
          · exact Or.inl ((h2 u).mp hu)
        · rintro (hu | hu)
          · exact Or.inr ((h2 u).mpr hu)
          · rcases hu with hu | hu
            · exact Or.inl hu
            · exact absurd hu (by simp)
      obtain ⟨g1, g2, g3⟩ := ih { st with
          seen := urlOf r :: st.seen
          pushed := st.pushed + 1
          all := st.all ++ [r] } hrest h1' h2'
      refine ⟨g1, g2, ?_⟩
      rw [g3]
      ext a
      simp only [List.map_append, List.map_cons, List.map_nil, List.toFinset_append,
        List.toFinset_cons, Finset.mem_union, Finset.mem_insert, List.mem_toFinset,
        List.toFinset_nil, Finset.not_mem_empty]
      tauto

/-! ## Claim C1: run-level dedup idempotence -/

/-- C1, counterexample.  Records whose URL field is missing/empty bypass
the dedup entirely (line 406 `if url:`): feeding two URL-less records
yields two retained records over one distinct URL value, with
`skipped_duplicates = 0` instead of `total_fed − unique = 1`, and
`all_results_for_files` holds two records with the same (empty) URL. -/
theorem c1_counterexample :
    (run_shopify_actor true true ("T")
        [(⟨("Alpha"), ("u"), ("")⟩, [⟨none, none, 0⟩, ⟨none, none, 1⟩])]).1.skipped_dupes
      = 0 ∧
    (run_shopify_actor true true ("T")
        [(⟨("Alpha"), ("u"), ("")⟩,
          [⟨none, none, 0⟩, ⟨none, none, 1⟩])]).1.all_results.length = 2 ∧
    ¬ ((run_shopify_actor true true ("T")
        [(⟨("Alpha"), ("u"), ("")⟩,
          [⟨none, none, 0⟩, ⟨none, none, 1⟩])]).1.all_results.map urlOf).Nodup ∧
    (([(⟨none, none, 0⟩ : AggRecord), ⟨none, none, 1⟩]).map urlOf).toFinset.card = 1 := by
  exact ⟨by decide, by decide, by decide, by decide⟩

/-- Modelled from the claim's wording (the specification side of the
refinement): of the records fed, exactly the FIRST-seen record of each
canonical URL is retained, in feed order; every later record with an
already-seen URL is dropped. -/
def firstSeenFilter (seen : List String) : List AggRecord → List AggRecord
  | [] => []
  | r :: rest =>
    if urlOf r ∈ seen then firstSeenFilter seen rest
    else r :: firstSeenFilter (urlOf r :: seen) rest

theorem dfold_first (l : List AggRecord) :
    ∀ st : DedupState, (∀ r ∈ l, urlOf r ≠ "") →
      (dfold st l).all = st.all ++ firstSeenFilter st.seen l := by
  induction l with
  | nil =>
    intro st _
    simp [dfold, firstSeenFilter]
  | cons r rest ih =>
    intro st hl
    have hr : urlOf r ≠ "" := hl r (by simp)
    have hrest : ∀ x ∈ rest, urlOf x ≠ "" := fun x hx => hl x (by simp [hx])
    have hstep : dfold st (r :: rest) = dfold (dstep st r) rest := rfl
    rw [hstep]
    simp only [firstSeenFilter]
    by_cases h2 : urlOf r ∈ st.seen
    · have hd : dstep st r = { st with skipped := st.skipped + 1 } := by
        unfold dstep
        rw [if_pos hr, if_pos h2]
      rw [hd, if_pos h2]
      exact ih { st with skipped := st.skipped + 1 } hrest
    · have hd : dstep st r = { st with
          seen := urlOf r :: st.seen
          pushed := st.pushed + 1
          all := st.all ++ [r] } := by
        unfold dstep
        rw [if_pos hr, if_neg h2]
      rw [hd, if_neg h2]
      rw [ih { st with
        seen := urlOf r :: st.seen
        pushed := st.pushed + 1
        all := st.all ++ [r] } hrest]
      dsimp only
      rw [List.append_assoc, List.singleton_append]

/-- C1, amended (restricted to records with a non-empty URL, the shape the
listing extractor always produces).  For every run whose fed records all
carry a non-empty URL, `all_results_for_files` holds at most one record per
canonical URL, `skipped_duplicates` equals the number of records fed minus
the number of distinct URLs among them (stated additively), and the
retained records are exactly the first-seen record of each URL, in feed
order. -/
theorem c1_amended (ec ex : Bool) (ts : String)
    (catApps : List (Category × List AggRecord))
    (h : ∀ ca ∈ catApps, ∀ r ∈ ca.2, urlOf r ≠ "") :
    ((run_shopify_actor ec ex ts catApps).1.all_results.map urlOf).Nodup ∧
    (run_shopify_actor ec ex ts catApps).1.skipped_dupes
        + ((catApps.map Prod.snd).flatten.map urlOf).toFinset.card
      = ((catApps.map Prod.snd).flatten).length ∧
    (run_shopify_actor ec ex ts catApps).1.all_results
      = firstSeenFilter [] (catApps.map Prod.snd).flatten := by
  have hproj := run_proj ec ex ts catApps
  have hJall : ∀ r ∈ (catApps.map Prod.snd).flatten, urlOf r ≠ "" := by
    intro r hrm
    rw [List.mem_flatten] at hrm
    obtain ⟨s, hs, hrs⟩ := hrm
    rw [List.mem_map] at hs
    obtain ⟨ca, hca, rfl⟩ := hs
    exact h ca hca r hrs
  obtain ⟨g1, g2, g3⟩ := dfold_dedup (catApps.map Prod.snd).flatten ⟨[], 0, 0, []⟩
    hJall (by simp) (by simp)
  have hcnt := dfold_counts (catApps.map Prod.snd).flatten ⟨[], 0, 0, []⟩
  have hall : (run_shopify_actor ec ex ts catApps).1.all_results
      = (dfold ⟨[], 0, 0, []⟩ (catApps.map Prod.snd).flatten).all :=
    congrArg DedupState.all hproj
  have hskip : (run_shopify_actor ec ex ts catApps).1.skipped_dupes
      = (dfold ⟨[], 0, 0, []⟩ (catApps.map Prod.snd).flatten).skipped :=
    congrArg DedupState.skipped hproj
  refine ⟨?_, ?_, ?_⟩
  · rw [hall]
    exact g1
  · rw [hskip]
    have hcard : ((dfold ⟨[], 0, 0, []⟩ (catApps.map Prod.snd).flatten).all.map
        urlOf).toFinset.card
        = ((catApps.map Prod.snd).flatten.map urlOf).toFinset.card := by
      rw [g3]
      simp
    have hlen : ((dfold ⟨[], 0, 0, []⟩ (catApps.map Prod.snd).flatten).all.map
        urlOf).toFinset.card
        = (dfold ⟨[], 0, 0, []⟩ (catApps.map Prod.snd).flatten).all.length := by
      rw [List.toFinset_card_of_nodup g1, List.length_map]
    simp only [List.length_nil] at hcnt
    omega
  · rw [hall, dfold_first (catApps.map Prod.snd).flatten ⟨[], 0, 0, []⟩ hJall]
    simp

/-- C1, witness: a run feeding three records with non-empty URLs, the third
duplicating the first's URL, satisfies the amended dedup law; moreover the
surviving record for the duplicated URL is the FIRST-seen one (tag 0), not
the later one (tag 2). -/
theorem c1_amended_witness :
    (∀ ca ∈ [((⟨("A"), ("u1"), ("")⟩ : Category),
        [(⟨some ("https://apps.shopify.com/x"), none, 0⟩ : AggRecord),
         ⟨some ("https://apps.shopify.com/y"), none, 1⟩,
         ⟨some ("https://apps.shopify.com/x"), none, 2⟩])],
      ∀ r ∈ ca.2, urlOf r ≠ "") ∧
    (((run_shopify_actor true true ("T")
        [(⟨("A"), ("u1"), ("")⟩,
          [⟨some ("https://apps.shopify.com/x"), none, 0⟩,
           ⟨some ("https://apps.shopify.com/y"), none, 1⟩,
           ⟨some ("https://apps.shopify.com/x"), none, 2⟩])]).1.all_results.map
        urlOf).Nodup ∧
      (run_shopify_actor true true ("T")
        [(⟨("A"), ("u1"), ("")⟩,
          [⟨some ("https://apps.shopify.com/x"), none, 0⟩,
           ⟨some ("https://apps.shopify.com/y"), none, 1⟩,
           ⟨some ("https://apps.shopify.com/x"), none, 2⟩])]).1.skipped_dupes
          + (((([(⟨("A"), ("u1"), ("")⟩,
              [(⟨some ("https://apps.shopify.com/x"), none, 0⟩ : AggRecord),
               ⟨some ("https://apps.shopify.com/y"), none, 1⟩,
               ⟨some ("https://apps.shopify.com/x"), none, 2⟩])] :
                List (Category × List AggRecord)).map
              Prod.snd).flatten.map urlOf).toFinset.card)
        = ((([(⟨("A"), ("u1"), ("")⟩,
            [(⟨some ("https://apps.shopify.com/x"), none, 0⟩ : AggRecord),
             ⟨some ("https://apps.shopify.com/y"), none, 1⟩,
             ⟨some ("https://apps.shopify.com/x"), none, 2⟩])] :
              List (Category × List AggRecord)).map Prod.snd).flatten).length ∧
      (run_shopify_actor true true ("T")
        [(⟨("A"), ("u1"), ("")⟩,
          [⟨some ("https://apps.shopify.com/x"), none, 0⟩,
           ⟨some ("https://apps.shopify.com/y"), none, 1⟩,
           ⟨some ("https://apps.shopify.com/x"), none, 2⟩])]).1.all_results
        = firstSeenFilter []
            (([(⟨("A"), ("u1"), ("")⟩,
              [(⟨some ("https://apps.shopify.com/x"), none, 0⟩ : AggRecord),
               ⟨some ("https://apps.shopify.com/y"), none, 1⟩,
               ⟨some ("https://apps.shopify.com/x"), none, 2⟩])] :
                List (Category × List AggRecord)).map Prod.snd).flatten) ∧
    (run_shopify_actor true true ("T")
        [(⟨("A"), ("u1"), ("")⟩,
          [⟨some ("https://apps.shopify.com/x"), none, 0⟩,
           ⟨some ("https://apps.shopify.com/y"), none, 1⟩,
           ⟨some ("https://apps.shopify.com/x"), none, 2⟩])]).1.all_results
      = [⟨some ("https://apps.shopify.com/x"), none, 0⟩,
         ⟨some ("https://apps.shopify.com/y"), none, 1⟩] := by
  refine ⟨by decide, ?_, ?_⟩
  · exact c1_amended true true ("T")
      [(⟨("A"), ("u1"), ("")⟩,
        [⟨some ("https://apps.shopify.com/x"), none, 0⟩,
         ⟨some ("https://apps.shopify.com/y"), none, 1⟩,
         ⟨some ("https://apps.shopify.com/x"), none, 2⟩])] (by decide)
  · exact (c1_amended true true ("T")
      [(⟨("A"), ("u1"), ("")⟩,
        [⟨some ("https://apps.shopify.com/x"), none, 0⟩,
         ⟨some ("https://apps.shopify.com/y"), none, 1⟩,
         ⟨some ("https://apps.shopify.com/x"), none, 2⟩])] (by decide)).2.2.trans
      (by decide)

/-! ## Claim C6: empty categories are harmless but unrecorded -/

theorem catStep_empty (ec ex : Bool) (ts : String) (st : RunState) (c : Category) :
    catStep ec ex ts st c [] = st := by
  unfold catStep
  rw [if_neg ?hc]
  case hc =>
    rintro ⟨-, h2⟩
    exact h2 rfl
  rfl

/-- C6, counterexample.  The claim says a zero-item category "receives an
entry in the per-category stats noting zero exports"; the code appends a
stats entry only when `per_cat_results` is nonempty, so the zero-item
category Alpha gets NO entry at all — the stats list only records Beta —
while the run continues (Beta's record is exported and the summary is
produced). -/
theorem c6_counterexample :
    ((run_shopify_actor true false ("T")
        [(⟨("Alpha"), ("u1"), ("")⟩, []),
         (⟨("Beta"), ("u2"), ("")⟩,
          [⟨some ("https://apps.shopify.com/beta-app"), none, 0⟩])]).1.category_stats.map
      CatStat.category) = [("Beta")] ∧
    (run_shopify_actor true false ("T")
        [(⟨("Alpha"), ("u1"), ("")⟩, []),
         (⟨("Beta"), ("u2"), ("")⟩,
          [⟨some ("https://apps.shopify.com/beta-app"), none, 0⟩])]).1.all_results.length
      = 1 ∧
    (run_shopify_actor true false ("T")
        [(⟨("Alpha"), ("u1"), ("")⟩, []),
         (⟨("Beta"), ("u2"), ("")⟩,
          [⟨some ("https://apps.shopify.com/beta-app"), none, 0⟩])]).2.per_category.map
      CatStat.category = [("Beta")] := by
  exact ⟨by decide, by decide, by decide⟩

/-- C6, amended.  A category whose listing yields zero items contributes
zero items, adds NO per-category stats entry (zero-export categories are
omitted from the stats), and does not abort the run: the run state —
results, dedup counters, stats for the other categories, generated files —
and every summary field except the echoed `categories_selected` list are
exactly as if the category were absent. -/
theorem c6_amended (ec ex : Bool) (ts : String)
    (pre post : List (Category × List AggRecord)) (c : Category) :
    (run_shopify_actor ec ex ts (pre ++ (c, []) :: post)).1
      = (run_shopify_actor ec ex ts (pre ++ post)).1 ∧
    (run_shopify_actor ec ex ts (pre ++ (c, []) :: post)).2
      = { (run_shopify_actor ec ex ts (pre ++ post)).2 with
          categories_selected :=
            (pre.map (fun ca => ca.1.name)) ++ c.name :: (post.map (fun ca => ca.1.name)) } := by
  have hfold : (pre ++ (c, ([] : List AggRecord)) :: post).foldl
        (fun st ca => catStep ec ex ts st ca.1 ca.2) (⟨0, [], 0, [], [], []⟩ : RunState)
      = (pre ++ post).foldl (fun st ca => catStep ec ex ts st ca.1 ca.2)
          (⟨0, [], 0, [], [], []⟩ : RunState) := by
    rw [List.foldl_append, List.foldl_cons, catStep_empty, List.foldl_append]
  constructor
  · unfold run_shopify_actor
    dsimp only
    rw [hfold]
  · unfold run_shopify_actor
    dsimp only
    rw [hfold]
    simp [List.map_append]

/-! ## Claim C10: empty-URL records bypass dedup -/

/-- Modelled from the claim's wording (the specification side of the
refinement): `skipped_duplicates` counts exactly the records whose
non-empty URL already occurred as the non-empty URL of an earlier record in
the run. -/
def specSkippedCount : List String → List AggRecord → Nat
  | _, [] => 0
  | seenBefore, r :: rest =>
    let u := urlOf r
    if u ≠ "" ∧ u ∈ seenBefore then 1 + specSkippedCount seenBefore rest
    else specSkippedCount (if u ≠ "" then u :: seenBefore else seenBefore) rest

theorem dfold_skipped (l : List AggRecord) :
    ∀ st : DedupState,
      (dfold st l).skipped = st.skipped + specSkippedCount st.seen l := by
  induction l with
  | nil => intro st; simp [dfold, specSkippedCount]
  | cons r rest ih =>
    intro st
    have hstep : dfold st (r :: rest) = dfold (dstep st r) rest := rfl
    rw [hstep]
    simp only [specSkippedCount]
    by_cases h1 : urlOf r ≠ ""
    · by_cases h2 : urlOf r ∈ st.seen
      · have hd : dstep st r = { st with skipped := st.skipped + 1 } := by
          unfold dstep
          rw [if_pos h1, if_pos h2]
        rw [hd, if_pos ⟨h1, h2⟩, ih]
        dsimp only
        omega
      · have hd : dstep st r = { st with
            seen := urlOf r :: st.seen
            pushed := st.pushed + 1
            all := st.all ++ [r] } := by
          unfold dstep
          rw [if_pos h1, if_neg h2]
        rw [hd, if_neg (fun hc => h2 hc.2), if_pos h1, ih]
    · have hd : dstep st r = { st with pushed := st.pushed + 1, all := st.all ++ [r] } := by
        unfold dstep
        rw [if_neg h1]
      rw [hd, if_neg (fun hc => h1 hc.1), if_neg h1, ih]

theorem dfold_emptyCount (l : List AggRecord) :
    ∀ st : DedupState,
      (dfold st l).all.countP (fun r => decide (urlOf r = ""))
        = st.all.countP (fun r => decide (urlOf r = ""))
          + l.countP (fun r => decide (urlOf r = "")) := by
  induction l with
  | nil => intro st; simp [dfold]
  | cons r rest ih =>
    intro st
    have hstep : dfold st (r :: rest) = dfold (dstep st r) rest := rfl
    rw [hstep, List.countP_cons]
    by_cases h1 : urlOf r ≠ ""
    · have hp : (decide (urlOf r = "")) = false := decide_eq_false h1
      rw [hp]
      by_cases h2 : urlOf r ∈ st.seen
      · have hd : dstep st r = { st with skipped := st.skipped + 1 } := by
          unfold dstep
          rw [if_pos h1, if_pos h2]
        rw [hd, ih]
        simp
      · have hd : dstep st r = { st with
            seen := urlOf r :: st.seen
            pushed := st.pushed + 1
            all := st.all ++ [r] } := by
          unfold dstep
          rw [if_pos h1, if_neg h2]
        rw [hd, ih]
        simp only [List.countP_append, List.countP_cons, List.countP_nil, hp]
        omega
    · have hp : (decide (urlOf r = "")) = true := by
        simp only [ne_eq, not_not] at h1
        exact decide_eq_true h1
      rw [hp]
      have hd : dstep st r = { st with pushed := st.pushed + 1, all := st.all ++ [r] } := by
        unfold dstep
        rw [if_neg (by simpa using h1)]
      rw [hd, ih]
      simp only [List.countP_append, List.countP_cons, List.countP_nil, hp]
      omega

/-- C10.  (a) A record whose URL is missing/empty unconditionally takes the
push-and-append path of the loop and never bumps `skipped_dupes`, so
several such records can coexist in the combined results; their count in
`all_results_for_files` equals their count in the fed sequence.  (b)
`skipped_duplicates` equals the from-the-claim counter that counts only
records whose non-empty URL was already seen earlier in the run. -/
theorem c10_empty_url_bypass :
    (∀ (st : CoreState) (r : AggRecord), urlOf r = "" →
      recStep st r = { st with
        pushed := st.pushed + 1
        perCat := st.perCat ++ [r]
        all := st.all ++ [r] }) ∧
    (∀ (ec ex : Bool) (ts : String) (catApps : List (Category × List AggRecord)),
      (run_shopify_actor ec ex ts catApps).1.skipped_dupes
          = specSkippedCount [] (catApps.map Prod.snd).flatten ∧
      (run_shopify_actor ec ex ts catApps).1.all_results.countP
            (fun r => decide (urlOf r = ""))
          = (catApps.map Prod.snd).flatten.countP (fun r => decide (urlOf r = ""))) := by
  constructor
  · intro st r hurl
    unfold recStep
    rw [if_neg (by simp [hurl])]
  · intro ec ex ts catApps
    have hproj := run_proj ec ex ts catApps
    have hskip : (run_shopify_actor ec ex ts catApps).1.skipped_dupes
        = (dfold ⟨[], 0, 0, []⟩ (catApps.map Prod.snd).flatten).skipped :=
      congrArg DedupState.skipped hproj
    have hall : (run_shopify_actor ec ex ts catApps).1.all_results
        = (dfold ⟨[], 0, 0, []⟩ (catApps.map Prod.snd).flatten).all :=
      congrArg DedupState.all hproj
    constructor
    · rw [hskip, dfold_skipped]
      dsimp only
      omega
    · rw [hall, dfold_emptyCount]
      simp

/-- C10, witness: a run feeding two URL-less records and one duplicated
non-empty URL; the bypass equation applies to the URL-less record, both
URL-less records survive into the combined results, and the skipped
counter matches the claim's counting. -/
theorem c10_empty_url_bypass_witness :
    (urlOf (⟨none, none, 7⟩ : AggRecord) = "" ∧
      recStep ⟨[("u")], 2, 3, [], []⟩ ⟨none, none, 7⟩
        = ⟨[("u")], 2, 4, [⟨none, none, 7⟩], [⟨none, none, 7⟩]⟩) ∧
    (run_shopify_actor true true ("T")
        [(⟨("A"), ("u1"), ("")⟩,
          [⟨none, none, 0⟩,
           ⟨some ("https://apps.shopify.com/x"), none, 1⟩,
           ⟨none, none, 2⟩,
           ⟨some ("https://apps.shopify.com/x"), none, 3⟩])]).1.skipped_dupes
      = specSkippedCount []
          (([(⟨("A"), ("u1"), ("")⟩,
            [(⟨none, none, 0⟩ : AggRecord),
             ⟨some ("https://apps.shopify.com/x"), none, 1⟩,
             ⟨none, none, 2⟩,
             ⟨some ("https://apps.shopify.com/x"), none, 3⟩])] :
              List (Category × List AggRecord)).map Prod.snd).flatten ∧
    (run_shopify_actor true true ("T")
        [(⟨("A"), ("u1"), ("")⟩,
          [⟨none, none, 0⟩,
           ⟨some ("https://apps.shopify.com/x"), none, 1⟩,
           ⟨none, none, 2⟩,
           ⟨some ("https://apps.shopify.com/x"), none, 3⟩])]).1.all_results.countP
        (fun r => decide (urlOf r = "")) = 2 := by
  refine ⟨⟨by decide, ?_⟩, ?_, by decide⟩
  · exact (c10_empty_url_bypass.1 ⟨[("u")], 2, 3, [], []⟩ ⟨none, none, 7⟩ (by decide)).trans
      (by decide)
  · exact (c10_empty_url_bypass.2 true true ("T")
      [(⟨("A"), ("u1"), ("")⟩,
        [⟨none, none, 0⟩,
         ⟨some ("https://apps.shopify.com/x"), none, 1⟩,
         ⟨none, none, 2⟩,
         ⟨some ("https://apps.shopify.com/x"), none, 3⟩])]).1
